import Mathlib

/-!
Verification of the MIRRA capture-and-retrieval engine.

This file shallowly embeds the Go source of the mirra repository
(recorder queue and JSONL writer, offset index, session grouping index,
provider SSE parsers, provider router, API redaction) as executable Lean
definitions, and proves the specified properties about them.

Conventions used throughout:
- Go byte strings that are scanned byte by byte (file contents, SSE bodies)
  are modelled as `List Char`; short identifiers and header names stay `String`.
- Go `map[string]T` values are modelled as association lists with
  insert-or-replace updates; iteration order of a Go map is unspecified, so
  theorems that depend on picking "the" matching entry carry a uniqueness
  hypothesis making the list order irrelevant.
- `encoding/json` marshalling of whole records is not re-implemented; where a
  component only round-trips opaque JSON lines (the recorder writer and the
  index persistence) the codec is a parameter constrained by the documented
  properties of `encoding/json` that the code relies on (round-trip on the
  values actually written, and no raw newline inside a marshalled line).
  The SSE parsers' own JSON decoding of `data:` payloads is likewise a
  parameter; all parser theorems hold for every decode function.
-/

set_option linter.unusedVariables false
set_option linter.unusedTactic false

namespace Mirra


/-! ## String helpers

Kernel-reducible counterparts of the Go `strings` functions used by the
source. They operate on `List Char` so that closed instances evaluate by
`rfl`/`decide`. -/

/-- Model of `unicode.IsSpace` restricted to the ASCII whitespace actually
occurring in SSE bodies (space, tab, CR, LF). -/
def isSpaceChar (c : Char) : Bool :=
  c = ' ' || c = '\t' || c = '\r' || c = '\n'

/-- Model of Go `strings.TrimSpace` on a character list. -/
def trimChars (cs : List Char) : List Char :=
  ((cs.dropWhile isSpaceChar).reverse.dropWhile isSpaceChar).reverse

/-- Model of Go `strings.TrimSpace`. -/
def strTrim (s : String) : String :=
  String.mk (trimChars s.data)

/-- Model of Go `strings.HasPrefix`. -/
def strHasPrefix (s pfx : String) : Bool :=
  pfx.data.isPrefixOf s.data

/-- Model of Go `strings.TrimPrefix` under the assumption that the prefix is
present (the source always guards with `HasPrefix`): drops `n` characters. -/
def strDropChars (s : String) (n : Nat) : String :=
  String.mk (s.data.drop n)

/-- Split a character list on a non-empty separator list, left to right and
non-overlapping, as Go `strings.Split` does for a non-empty separator.
Structural recursion on an explicit fuel equal to the list length. -/
def splitSubAux (sep : List Char) : Nat → List Char → List (List Char)
  | _, [] => [[]]
  | 0, cs => [cs]
  | Nat.succ fuel, c :: rest =>
    if sep.isPrefixOf (c :: rest) then
      [] :: splitSubAux sep fuel (rest.drop (sep.length - 1))
    else
      match splitSubAux sep fuel rest with
      | [] => [[c]]
      | l :: ls => (c :: l) :: ls

/-- Model of Go `strings.Split` for a non-empty separator, on character
lists. For an empty separator it returns the input whole (the source never
splits on an empty separator). -/
def splitSub (sep cs : List Char) : List (List Char) :=
  if sep.isEmpty then [cs] else splitSubAux sep cs.length cs

/-- Model of Go `strings.Split` on strings (non-empty separator). -/
def strSplitOn (s sep : String) : List String :=
  (splitSub sep.data s.data).map String.mk

/-- The lines of a body, as split by `strings.Split(body, "\n")`. -/
def strLines (s : String) : List String :=
  (splitSub ['\n'] s.data).map String.mk

/-- Model of Go `strings.ToLower` restricted to character-wise lowering. -/
def strLower (s : String) : String :=
  String.mk (s.data.map Char.toLower)

/-- Model of Go `strings.EqualFold` (ASCII-adequate: character-wise
case-insensitive equality). -/
def strEqFold (a b : String) : Bool :=
  strLower a = strLower b

/-- Whether `pat` occurs as a contiguous sublist of `cs`. -/
def subOccurs (pat : List Char) : List Char → Bool
  | [] => pat.isEmpty
  | c :: rest => pat.isPrefixOf (c :: rest) || subOccurs pat rest

/-- Model of Go `strings.Contains` (substring containment). -/
def strContainsSub (s pat : String) : Bool :=
  subOccurs pat.data s.data

/-- Whether a string contains a given character, as Go `strings.Contains`
with a one-character pattern. -/
def strContainsChar (s : String) (c : Char) : Bool :=
  s.data.contains c

/-! ## JSON value model

Go's `encoding/json` unmarshals `data:` payloads into
`map[string]interface{}`; the dynamic values are therefore JSON trees whose
leaves are `nil`, `bool`, `float64` and `string`, with `[]interface{}` and
`map[string]interface{}` as the two composite shapes. Numbers are modelled
as `Int` (no claim depends on fractional values). -/

inductive JValue where
  | jnull : JValue
  | jbool : Bool → JValue
  | jnum : Int → JValue
  | jstr : String → JValue
  | jarr : List JValue → JValue
  | jobj : List (String × JValue) → JValue

/-- Fields of a JSON object: a Go `map[string]interface{}`. -/
abbrev JObj := List (String × JValue)

/-- Lookup in a JSON object, as Go `m[key]` returning the zero value check
`v, ok := m[key]` (the `ok` is the `Option`). -/
def jLookup (fields : JObj) (key : String) : Option JValue :=
  match fields with
  | [] => none
  | (k, v) :: rest => if k = key then some v else jLookup rest key

/-- Insert-or-replace in a JSON object, as Go `m[key] = v`. -/
def jSet (fields : JObj) (key : String) (v : JValue) : JObj :=
  match fields with
  | [] => [(key, v)]
  | (k, w) :: rest => if k = key then (k, v) :: rest else (k, w) :: jSet rest key v

/-! ## Recording data model (`internal/recorder`, recorder.go) -/

/-- `recorder.RequestData`. The body is a decoded JSON value when present
(`interface{}` in Go, `nil` modelled as `none`). Header maps are modelled as
ordered association lists of name to value list. -/
structure RequestData where
  method : String
  path : String
  query : String
  headers : List (String × List String)
  body : Option JValue

/-- `recorder.ResponseData`. -/
structure ResponseData where
  status : Int
  headers : List (String × List String)
  body : Option JValue
  streaming : Bool

/-- `recorder.TimingData`; instants are modelled as integers. -/
structure TimingData where
  startedAt : Int
  completedAt : Int
  durationMs : Int

/-- `recorder.Recording`. -/
structure Recording where
  id : String
  timestamp : Int
  provider : String
  request : RequestData
  response : ResponseData
  responseSize : Int
  timing : TimingData
  error : String

/-- `recorder.IndexEntry`: locator of one recording inside a JSONL file. -/
structure IndexEntry where
  id : String
  filename : String
  offset : Nat
  length : Nat
  timestamp : Int
  provider : String
deriving DecidableEq

/-! ## SSE parser model (`internal/sse`)

The three parsers are embedded as functions of the raw body and of a
`decode : String → Option JObj` parameter standing for
`json.Unmarshal(data, &map[string]interface{})`; `none` models an unmarshal
error. All parser theorems are proved for every decode function.

Two places where the Go code performs an unchecked type assertion that can
panic (a `tool_calls` delta without a numeric `index`, and a non-string
accumulated value) are modelled as no-ops; no claim concerns those inputs. -/

/-- `sse.Event`. -/
structure Event where
  type : String
  data : JObj

/-- `sse.ParsedStream`. -/
structure ParsedStream where
  provider : String
  events : List Event
  text : String
  metadata : JObj

/-- `ClaudeParser.extractMessageStartMetadata`. -/
def extractMessageStartMetadata (data : JObj) (parsed : ParsedStream) : ParsedStream :=
  match jLookup data "message" with
  | some (.jobj message) =>
    let p1 := match jLookup message "model" with
      | some (.jstr model) => { parsed with metadata := jSet parsed.metadata "model" (.jstr model) }
      | _ => parsed
    let p2 := match jLookup message "id" with
      | some (.jstr mid) => { p1 with metadata := jSet p1.metadata "message_id" (.jstr mid) }
      | _ => p1
    match jLookup message "usage" with
    | some (.jobj usage) =>
      let md := jSet p2.metadata "input_tokens" ((jLookup usage "input_tokens").getD .jnull)
      let md := jSet md "cache_creation_input_tokens"
        ((jLookup usage "cache_creation_input_tokens").getD .jnull)
      let md := jSet md "cache_read_input_tokens"
        ((jLookup usage "cache_read_input_tokens").getD .jnull)
      { p2 with metadata := md }
    | _ => p2
  | _ => parsed

/-- `ClaudeParser.extractDeltaText`: text deltas extend `text`; thinking and
tool-input deltas accumulate into metadata. -/
def extractDeltaText (data : JObj) (parsed : ParsedStream) : ParsedStream :=
  match jLookup data "delta" with
  | some (.jobj delta) =>
    let deltaType := match jLookup delta "type" with
      | some (.jstr t) => t
      | _ => ""
    if deltaType = "text_delta" then
      match jLookup delta "text" with
      | some (.jstr text) => { parsed with text := parsed.text ++ text }
      | _ => parsed
    else if deltaType = "thinking_delta" then
      match jLookup delta "thinking" with
      | some (.jstr thinking) =>
        match jLookup parsed.metadata "thinking" with
        | some (.jstr prev) =>
          { parsed with metadata := jSet parsed.metadata "thinking" (.jstr (prev ++ thinking)) }
        | _ => { parsed with metadata := jSet parsed.metadata "thinking" (.jstr thinking) }
      | _ => parsed
    else if deltaType = "input_json_delta" then
      match jLookup delta "partial_json" with
      | some (.jstr partialJSON) =>
        match jLookup parsed.metadata "tool_input" with
        | some (.jstr prev) =>
          { parsed with metadata := jSet parsed.metadata "tool_input" (.jstr (prev ++ partialJSON)) }
        | _ => { parsed with metadata := jSet parsed.metadata "tool_input" (.jstr partialJSON) }
      | _ => parsed
    else parsed
  | _ => parsed

/-- `ClaudeParser.extractMessageDeltaMetadata`. -/
def extractMessageDeltaMetadata (data : JObj) (parsed : ParsedStream) : ParsedStream :=
  let p1 := match jLookup data "delta" with
    | some (.jobj delta) =>
      match jLookup delta "stop_reason" with
      | some (.jstr sr) => { parsed with metadata := jSet parsed.metadata "stop_reason" (.jstr sr) }
      | _ => parsed
    | _ => parsed
  match jLookup data "usage" with
  | some (.jobj usage) =>
    match jLookup usage "output_tokens" with
    | some v => { p1 with metadata := jSet p1.metadata "output_tokens" v }
    | none => p1
  | _ => p1

/-- `ClaudeParser.processEvent`: unmarshal the accumulated data; a failed
unmarshal is tolerated only for `ping` events; otherwise record the event and
dispatch on the event type. -/
def claudeProcessEvent (decode : String → Option JObj) (eventType dataJSON : String)
    (parsed : ParsedStream) : Option ParsedStream :=
  match decode dataJSON with
  | none => if eventType = "ping" then some parsed else none
  | some eventData =>
    let p := { parsed with events := parsed.events ++ [{ type := eventType, data := eventData }] }
    if eventType = "message_start" then some (extractMessageStartMetadata eventData p)
    else if eventType = "content_block_delta" then some (extractDeltaText eventData p)
    else if eventType = "message_delta" then some (extractMessageDeltaMetadata eventData p)
    else some p

/-- The line loop of `ClaudeParser.Parse`. State: the current event type and
the accumulated `data:` fragments (joined with a newline; `""` models the
empty builder — a flushed fragment is never empty because the line is
trimmed before the `data: ` prefix is tested). -/
def claudeParseLines (decode : String → Option JObj) :
    List String → String → String → ParsedStream → Option ParsedStream
  | [], et, dat, parsed =>
    if et ≠ "" ∧ dat ≠ "" then claudeProcessEvent decode et dat parsed else some parsed
  | line :: rest, et, dat, parsed =>
    let t := strTrim line
    if strHasPrefix t "event: " then
      if et ≠ "" ∧ dat ≠ "" then
        match claudeProcessEvent decode et dat parsed with
        | none => none
        | some p => claudeParseLines decode rest (strDropChars t 7) "" p
      else
        claudeParseLines decode rest (strDropChars t 7) dat parsed
    else if strHasPrefix t "data: " then
      let content := strDropChars t 6
      claudeParseLines decode rest et (if dat ≠ "" then dat ++ "\n" ++ content else content) parsed
    else if t = "" ∧ et ≠ "" ∧ dat ≠ "" then
      match claudeProcessEvent decode et dat parsed with
      | none => none
      | some p => claudeParseLines decode rest "" "" p
    else
      claudeParseLines decode rest et dat parsed

/-- `ClaudeParser.Parse`. -/
def claudeParse (decode : String → Option JObj) (body : String) : Option ParsedStream :=
  claudeParseLines decode (strLines body) "" ""
    { provider := "claude", events := [], text := "", metadata := [] }

/-- First-chunk metadata extraction of `OpenAIParser.processChunk`. -/
def openaiFirstChunkMeta (chunk : JObj) (parsed : ParsedStream) : ParsedStream :=
  let p1 := match jLookup chunk "id" with
    | some (.jstr i) => { parsed with metadata := jSet parsed.metadata "id" (.jstr i) }
    | _ => parsed
  let p2 := match jLookup chunk "model" with
    | some (.jstr m) => { p1 with metadata := jSet p1.metadata "model" (.jstr m) }
    | _ => p1
  match jLookup chunk "created" with
  | some (.jnum n) => { p2 with metadata := jSet p2.metadata "created" (.jnum n) }
  | _ => p2

/-- In-place element update of a list, as a Go slice element assignment. -/
def updateAt (l : List JValue) (i : Nat) (f : JValue → JValue) : List JValue :=
  match l, i with
  | [], _ => []
  | x :: xs, 0 => f x :: xs
  | x :: xs, Nat.succ n => x :: updateAt xs n f

/-- Field accumulation for one `tool_calls` entry
(`OpenAIParser.extractToolCalls` loop body, inner record update). -/
def applyToolCallFields (toolCall : JObj) (entry : JValue) : JValue :=
  match entry with
  | .jobj fields =>
    let fields := match jLookup toolCall "id" with
      | some (.jstr i) => jSet fields "id" (.jstr i)
      | _ => fields
    let fields := match jLookup toolCall "type" with
      | some (.jstr t) => jSet fields "type" (.jstr t)
      | _ => fields
    match jLookup toolCall "function" with
    | some (.jobj function) =>
      let fnData := match jLookup fields "function" with
        | some (.jobj f) => f
        | _ => []
      let fnData := match jLookup function "name" with
        | some (.jstr name) => jSet fnData "name" (.jstr name)
        | _ => fnData
      let fnData := match jLookup function "arguments" with
        | some (.jstr args) =>
          match jLookup fnData "arguments" with
          | some (.jstr prev) => jSet fnData "arguments" (.jstr (prev ++ args))
          | _ => jSet fnData "arguments" (.jstr args)
        | _ => fnData
      .jobj (jSet fields "function" (.jobj fnData))
    | _ => .jobj fields
  | _ => entry

/-- One iteration of the `OpenAIParser.extractToolCalls` loop: grow the
accumulated array up to the entry's `index` and merge the fields there. -/
def applyToolCall (calls : List JValue) (tc : JValue) : List JValue :=
  match tc with
  | .jobj toolCall =>
    match jLookup toolCall "index" with
    | some (.jnum idx) =>
      if 0 ≤ idx then
        let i := idx.toNat
        let grown := if calls.length ≤ i
          then calls ++ List.replicate (i + 1 - calls.length) (JValue.jobj [])
          else calls
        updateAt grown i (applyToolCallFields toolCall)
      else calls
    | _ => calls
  | _ => calls

/-- `OpenAIParser.extractToolCalls`. -/
def openaiExtractToolCalls (toolCalls : List JValue) (parsed : ParsedStream) : ParsedStream :=
  let existing := match jLookup parsed.metadata "tool_calls" with
    | some (.jarr calls) => calls
    | _ => []
  { parsed with metadata := jSet parsed.metadata "tool_calls" (.jarr (toolCalls.foldl applyToolCall existing)) }

/-- The `choices[0]` processing of `OpenAIParser.processChunk`: delta content
extends `text`, role / tool calls / finish reason / index go to metadata. -/
def openaiChoiceData (choice : JObj) (parsed : ParsedStream) : ParsedStream :=
  let p := match jLookup choice "delta" with
    | some (.jobj []) => parsed
    | some (.jobj delta) =>
      let p1 := match jLookup delta "content" with
        | some (.jstr content) => { parsed with text := parsed.text ++ content }
        | _ => parsed
      let p2 := match jLookup delta "role" with
        | some (.jstr role) => { p1 with metadata := jSet p1.metadata "role" (.jstr role) }
        | _ => p1
      match jLookup delta "tool_calls" with
      | some (.jarr toolCalls) => openaiExtractToolCalls toolCalls p2
      | _ => p2
    | _ => parsed
  let p := match jLookup choice "finish_reason" with
    | some (.jstr reason) => { p with metadata := jSet p.metadata "finish_reason" (.jstr reason) }
    | _ => p
  match jLookup choice "index" with
  | some (.jnum i) => { p with metadata := jSet p.metadata "choice_index" (.jnum i) }
  | _ => p

/-- `usage` extraction of `OpenAIParser.processChunk`. -/
def openaiUsage (chunk : JObj) (parsed : ParsedStream) : ParsedStream :=
  match jLookup chunk "usage" with
  | some (.jobj usage) =>
    let p1 := match jLookup usage "prompt_tokens" with
      | some (.jnum n) => { parsed with metadata := jSet parsed.metadata "prompt_tokens" (.jnum n) }
      | _ => parsed
    let p2 := match jLookup usage "completion_tokens" with
      | some (.jnum n) => { p1 with metadata := jSet p1.metadata "completion_tokens" (.jnum n) }
      | _ => p1
    match jLookup usage "total_tokens" with
    | some (.jnum n) => { p2 with metadata := jSet p2.metadata "total_tokens" (.jnum n) }
    | _ => p2
  | _ => parsed

/-- `OpenAIParser.processChunk`. A chunk without a `choices` array (or with
an empty one) returns early, skipping `usage` extraction, exactly as the
source does. -/
def openaiProcessChunk (decode : String → Option JObj) (dataJSON : String)
    (parsed : ParsedStream) : Option ParsedStream :=
  match decode dataJSON with
  | none => none
  | some chunk =>
    let p := { parsed with events := parsed.events ++ [{ type := "chunk", data := chunk }] }
    let p := if p.events.length = 1 then openaiFirstChunkMeta chunk p else p
    match jLookup chunk "choices" with
    | some (.jarr []) => some p
    | some (.jarr (c0 :: _)) =>
      let p := match c0 with
        | .jobj choice => openaiChoiceData choice p
        | _ => p
      some (openaiUsage chunk p)
    | _ => some p

/-- The synthetic event emitted for a `data: [DONE]` line. -/
def doneEvent : Event :=
  { type := "done", data := [("marker", JValue.jstr "[DONE]")] }

/-- The line loop of `OpenAIParser.Parse`: each trimmed `data: ` line is
either the `[DONE]` marker (emitting a synthetic event and continuing) or a
JSON chunk. -/
def openaiParseLines (decode : String → Option JObj) :
    List String → ParsedStream → Option ParsedStream
  | [], parsed => some parsed
  | line :: rest, parsed =>
    let t := strTrim line
    if t = "" then openaiParseLines decode rest parsed
    else if strHasPrefix t "data: " then
      if strDropChars t 6 = "[DONE]" then
        openaiParseLines decode rest { parsed with events := parsed.events ++ [doneEvent] }
      else
        match openaiProcessChunk decode (strDropChars t 6) parsed with
        | none => none
        | some p => openaiParseLines decode rest p
    else openaiParseLines decode rest parsed

/-- `OpenAIParser.Parse`. -/
def openaiParse (decode : String → Option JObj) (body : String) : Option ParsedStream :=
  openaiParseLines decode (strLines body)
    { provider := "openai", events := [], text := "", metadata := [] }

/-- `GeminiParser.extractFunctionCall`. -/
def geminiExtractFunctionCall (fc : JObj) (parsed : ParsedStream) : ParsedStream :=
  let calls := match jLookup parsed.metadata "function_calls" with
    | some (.jarr cs) => cs
    | _ => []
  let callData : JObj := match jLookup fc "name" with
    | some (.jstr n) => [("name", JValue.jstr n)]
    | _ => []
  let callData := match jLookup fc "args" with
    | some (.jobj a) => jSet callData "args" (.jobj a)
    | _ => callData
  { parsed with metadata := jSet parsed.metadata "function_calls" (.jarr (calls ++ [.jobj callData])) }

/-- One `parts[]` element of a Gemini candidate: text parts extend `text`,
function calls go to metadata. -/
def geminiPart (parsed : ParsedStream) (part : JValue) : ParsedStream :=
  match part with
  | .jobj partMap =>
    let p := match jLookup partMap "text" with
      | some (.jstr text) => { parsed with text := parsed.text ++ text }
      | _ => parsed
    match jLookup partMap "functionCall" with
    | some (.jobj fc) => geminiExtractFunctionCall fc p
    | _ => p
  | _ => parsed

/-- The `candidates[0]` processing of `GeminiParser.processChunk`. -/
def geminiCandidate (candidate : JObj) (parsed : ParsedStream) : ParsedStream :=
  let p := match jLookup candidate "finishReason" with
    | some (.jstr fr) => { parsed with metadata := jSet parsed.metadata "finish_reason" (.jstr fr) }
    | _ => parsed
  let p := match jLookup candidate "safetyRatings" with
    | some (.jarr sr) => { p with metadata := jSet p.metadata "safety_ratings" (.jarr sr) }
    | _ => p
  let p := match jLookup candidate "content" with
    | some (.jobj content) =>
      let p := match jLookup content "role" with
        | some (.jstr role) =>
          match jLookup p.metadata "role" with
          | some .jnull => { p with metadata := jSet p.metadata "role" (.jstr role) }
          | none => { p with metadata := jSet p.metadata "role" (.jstr role) }
          | some _ => p
        | _ => p
      match jLookup content "parts" with
      | some (.jarr parts) => parts.foldl geminiPart p
      | _ => p
    | _ => p
  match jLookup candidate "groundingMetadata" with
  | some (.jobj gm) => { p with metadata := jSet p.metadata "grounding_metadata" (.jobj gm) }
  | _ => p

/-- `usageMetadata` extraction of `GeminiParser.processChunk`. -/
def geminiUsage (chunk : JObj) (parsed : ParsedStream) : ParsedStream :=
  match jLookup chunk "usageMetadata" with
  | some (.jobj usage) =>
    let p1 := match jLookup usage "promptTokenCount" with
      | some (.jnum n) => { parsed with metadata := jSet parsed.metadata "prompt_tokens" (.jnum n) }
      | _ => parsed
    let p2 := match jLookup usage "candidatesTokenCount" with
      | some (.jnum n) => { p1 with metadata := jSet p1.metadata "completion_tokens" (.jnum n) }
      | _ => p1
    let p3 := match jLookup usage "totalTokenCount" with
      | some (.jnum n) => { p2 with metadata := jSet p2.metadata "total_tokens" (.jnum n) }
      | _ => p2
    match jLookup usage "cachedContentTokenCount" with
    | some (.jnum n) => { p3 with metadata := jSet p3.metadata "cached_content_tokens" (.jnum n) }
    | _ => p3
  | _ => parsed

/-- `GeminiParser.processChunk`. -/
def geminiProcessChunk (decode : String → Option JObj) (dataJSON : String)
    (parsed : ParsedStream) : Option ParsedStream :=
  match decode dataJSON with
  | none => none
  | some chunk =>
    let p := { parsed with events := parsed.events ++ [{ type := "chunk", data := chunk }] }
    let p := match jLookup chunk "modelVersion" with
      | some (.jstr mv) => { p with metadata := jSet p.metadata "model" (.jstr mv) }
      | _ => p
    let p := match jLookup chunk "responseId" with
      | some (.jstr rid) => { p with metadata := jSet p.metadata "response_id" (.jstr rid) }
      | _ => p
    let p := match jLookup chunk "candidates" with
      | some (.jarr (c0 :: _)) =>
        match c0 with
        | .jobj candidate => geminiCandidate candidate p
        | _ => p
      | _ => p
    some (geminiUsage chunk p)

/-- The line loop of `GeminiParser.Parse`. -/
def geminiParseLines (decode : String → Option JObj) :
    List String → ParsedStream → Option ParsedStream
  | [], parsed => some parsed
  | line :: rest, parsed =>
    let t := strTrim line
    if strHasPrefix t "data: " then
      match geminiProcessChunk decode (strDropChars t 6) parsed with
      | none => none
      | some p => geminiParseLines decode rest p
    else geminiParseLines decode rest parsed

/-- `GeminiParser.Parse`. -/
def geminiParse (decode : String → Option JObj) (body : String) : Option ParsedStream :=
  geminiParseLines decode (strLines body)
    { provider := "gemini", events := [], text := "", metadata := [] }

/-! ## Association-list helpers (Go maps) -/

/-- Lookup in an association list modelling a Go `map[string]α`. -/
def alistGet {α : Type} : List (String × α) → String → Option α
  | [], _ => none
  | (k, v) :: rest, key => if k = key then some v else alistGet rest key

/-- Insert-or-replace in an association list modelling `m[key] = v`. -/
def alistPut {α : Type} : List (String × α) → String → α → List (String × α)
  | [], key, v => [(key, v)]
  | (k, w) :: rest, key, v =>
    if k = key then (k, v) :: rest else (k, w) :: alistPut rest key v

/-! ## Asynchronous recorder (`internal/recorder`, recorder.go + index.go)

The recordings directory is modelled as an association list from filename to
file content (a character list; one Go byte per `Char`). `json.Marshal` /
`json.Unmarshal` of whole `Recording` lines are parameters `marshal` /
`unmarshal`; the theorems assume only what `encoding/json` guarantees and the
code relies on: marshalling emits no raw newline, and unmarshalling a
marshalled line (with its trailing newline, which `json.Unmarshal` ignores as
whitespace) returns the original value. -/

/-- Upsert into the in-memory index map `id → IndexEntry` (`Index.Add`). -/
def upsertEntry : List IndexEntry → IndexEntry → List IndexEntry
  | [], e => [e]
  | x :: xs, e => if x.id = e.id then e :: xs else x :: upsertEntry xs e

/-- The recorder's on-disk state: the data files and the in-memory index. -/
structure RecorderState where
  files : List (String × List Char)
  entries : List IndexEntry

/-- The empty recorder state. -/
def emptyRecorderState : RecorderState :=
  { files := [], entries := [] }

/-- Content of a file; a missing file reads as empty (the writer treats a
failed `stat` as offset 0 and `O_CREATE` creates the file). -/
def fsRead (files : List (String × List Char)) (name : String) : List Char :=
  (alistGet files name).getD []

/-- `Recorder.writeRecording`: stat the daily file for the offset, append the
marshalled line plus a newline, and insert the IndexEntry (offset = file size
before the append, length = line without the newline). The filename is a
parameter because the source derives it from the wall clock. -/
def writeRecording (marshal : Recording → List Char) (s : RecorderState)
    (filename : String) (rec : Recording) : RecorderState :=
  let content := fsRead s.files filename
  let data := marshal rec
  { files := alistPut s.files filename (content ++ data ++ ['\n'])
    entries := upsertEntry s.entries
      { id := rec.id, filename := filename, offset := content.length,
        length := data.length, timestamp := rec.timestamp, provider := rec.provider } }

/-- Apply a sequence of `writeRecording` calls (filename, recording). -/
def runWrites (marshal : Recording → List Char) (writes : List (String × Recording)) :
    RecorderState :=
  writes.foldl (fun s w => writeRecording marshal s w.1 w.2) emptyRecorderState

/-- `Index.Get`: exact-match lookup. -/
def indexGet (entries : List IndexEntry) (id : String) : Option IndexEntry :=
  entries.find? (fun e => e.id == id)

/-- `Index.GetByPrefix`: exact match first, then the first entry whose id has
the given prefix (Go map iteration order is unspecified; theorems using this
carry a uniqueness hypothesis). -/
def getByPrefix (entries : List IndexEntry) (pfx : String) : Option IndexEntry :=
  match indexGet entries pfx with
  | some e => some e
  | none => entries.find? (fun e => strHasPrefix e.id pfx)

/-- `bufio.Reader.ReadBytes('\n')`: everything up to and including the first
newline, or up to end of file. -/
def takeLine : List Char → List Char
  | [] => []
  | c :: rest => if c = '\n' then ['\n'] else c :: takeLine rest

/-- `Index.ReadRecording`: locate the entry by prefix, seek to its offset,
read one line, unmarshal. -/
def readRecording (unmarshal : List Char → Option Recording) (s : RecorderState)
    (id : String) : Option Recording :=
  match getByPrefix s.entries id with
  | none => none
  | some entry =>
    let content := fsRead s.files entry.filename
    unmarshal (takeLine (content.drop entry.offset))

/-! ## Offset index rebuild and persistence (`Index.Rebuild` / `Save` / `Load`)

The minimal per-line unmarshal of `Rebuild` (just `id`, `timestamp`,
`provider`) and the JSON array codec of `index.json` are parameters. -/

/-- The minimal fields `Rebuild` parses out of each line. -/
structure PartialMeta where
  id : String
  timestamp : Int
  provider : String

/-- Whether a directory entry name ends in `.jsonl`. -/
def strEndsWith (s sfx : String) : Bool :=
  sfx.data.reverse.isPrefixOf s.data.reverse

/-- The per-file scan loop of `Index.Rebuild`: track the running byte offset;
empty and malformed lines are skipped, advancing the offset by the line
length plus one for the newline. -/
def scanLines (parseMeta : List Char → Option PartialMeta) (fname : String) :
    List (List Char) → Nat → List IndexEntry → List IndexEntry
  | [], _, acc => acc
  | l :: rest, off, acc =>
    if l.isEmpty then
      scanLines parseMeta fname rest (off + l.length + 1) acc
    else
      match parseMeta l with
      | none => scanLines parseMeta fname rest (off + l.length + 1) acc
      | some m =>
        scanLines parseMeta fname rest (off + l.length + 1)
          (upsertEntry acc
            { id := m.id, filename := fname, offset := off, length := l.length,
              timestamp := m.timestamp, provider := m.provider })

/-- The directory scan of `Index.Rebuild`: every `*.jsonl` file contributes
its lines to a fresh map. -/
def rebuildEntries (parseMeta : List Char → Option PartialMeta)
    (dir : List (String × List Char)) : List IndexEntry :=
  dir.foldl
    (fun acc f =>
      if strEndsWith f.1 ".jsonl" then scanLines parseMeta f.1 (splitSub ['\n'] f.2) 0 acc
      else acc)
    []

/-- State of the offset index against a fixed directory: the data files, the
in-memory map, the persisted `index.json` content, and the dirty flag. -/
structure IndexState where
  dir : List (String × List Char)
  entries : List IndexEntry
  indexFile : Option (List Char)
  dirty : Bool

/-- `Index.Rebuild`: replace the in-memory map from a directory scan and mark
the index dirty. -/
def indexRebuild (parseMeta : List Char → Option PartialMeta) (s : IndexState) : IndexState :=
  { s with entries := rebuildEntries parseMeta s.dir, dirty := true }

/-- `Index.Save`: when dirty, serialize the entries (as a JSON array) and
atomically replace `index.json`; otherwise do nothing. -/
def indexSave (serialize : List IndexEntry → List Char) (s : IndexState) : IndexState :=
  if s.dirty then { s with indexFile := some (serialize s.entries) } else s

/-- `Index.Load`: a missing file leaves the state as is; a decoded array is
folded back into the map. (A malformed file returns an error in the source
and leaves the map untouched; that branch is irrelevant to the round-trip
statement and modelled identically.) -/
def indexLoad (deserialize : List Char → Option (List IndexEntry)) (s : IndexState) : IndexState :=
  match s.indexFile with
  | none => s
  | some data =>
    match deserialize data with
    | none => s
    | some es => { s with entries := es.foldl upsertEntry [] }

/-! ## Recorder queue (`Recorder.Record`) -/

/-- `make(chan Recording, 100)`: the channel capacity. -/
def queueCapacity : Nat := 100

/-- `Recorder.Record`: a disabled recorder returns at once; otherwise a
non-blocking send on the bounded channel. The Boolean result models whether
the `default` branch fired (recording dropped, warning logged). The function
is total: it returns for every queue state, modelling that the caller is
never delayed and no error reaches it. -/
def recordSend (enabled : Bool) (queue : List Recording) (rec : Recording) :
    List Recording × Bool :=
  if enabled = false then (queue, false)
  else if queue.length < queueCapacity then (queue ++ [rec], false)
  else (queue, true)

/-! ## Session grouping (`internal/grouping`, extractor.go + sessions.go) -/

/-- `extractTraceID` header loop: first header whose name case-insensitively
equals `Sentry-Trace` and whose first value has a non-empty segment before
the first dash. -/
def traceIdFromHeaders : List (String × List String) → String
  | [] => ""
  | (k, vs) :: rest =>
    if strEqFold k "Sentry-Trace" ∧ vs ≠ [] then
      let seg := (strSplitOn (vs.headD "") "-").headD ""
      if seg ≠ "" then seg else traceIdFromHeaders rest
    else traceIdFromHeaders rest

/-- `extractTraceID`. -/
def extractTraceID (rec : Recording) : String :=
  traceIdFromHeaders rec.request.headers

/-- `extractSessionID`: navigate `request.body.metadata.user_id`, split on
the literal `_session_`, and return the second segment only when the split
yields exactly two segments and it is non-empty. -/
def extractSessionID (rec : Recording) : String :=
  match rec.request.body with
  | some (.jobj bodyMap) =>
    match jLookup bodyMap "metadata" with
    | some (.jobj metadata) =>
      match jLookup metadata "user_id" with
      | some (.jstr userID) =>
        match strSplitOn userID "_session_" with
        | [_, p1] => if p1 ≠ "" then p1 else ""
        | _ => ""
      | _ => ""
    | _ => ""
  | _ => ""

/-- `extractGroupKey`: trace id first, session id as fallback; the Boolean
says which one was used. -/
def extractGroupKey (rec : Recording) : String × Bool :=
  let traceID := extractTraceID rec
  if traceID ≠ "" then (traceID, true)
  else
    let sessionID := extractSessionID rec
    if sessionID ≠ "" then (sessionID, false) else ("", false)

/-- `containsString`. -/
def containsString (slice : List String) (value : String) : Bool :=
  slice.any (fun item => item == value)

/-- `grouping.SessionGroup`. -/
structure SessionGroup where
  traceId : String
  sessionId : String
  recordingIds : List String
  firstTimestamp : Int
  lastTimestamp : Int
  requestCount : Nat
  providers : List String
  hasErrors : Bool

/-- `grouping.SessionGroupIndex`. The Go `bySessionID` map holds pointers into
`Groups`; it is modelled as key indirection (session id → group key). -/
structure SessionGroupIndex where
  groups : List (String × SessionGroup)
  bySessionId : List (String × String)
  byRecordingId : List (String × String)
  totalGroups : Nat
  dirty : Bool
  saveCount : Nat

/-- A fresh `SessionGroupIndex`. -/
def emptySessionIndex : SessionGroupIndex :=
  { groups := [], bySessionId := [], byRecordingId := [], totalGroups := 0,
    dirty := false, saveCount := 0 }

/-- `MaxRecordingsPerGroup`. -/
def maxRecordingsPerGroup : Nat := 1000

/-- The group-update section of `AddRecording`: append the recording id,
advance the last timestamp and the request count, add the provider if not
yet present, and set the sticky error flag when the recording failed. -/
def updateGroup (group : SessionGroup) (rec : Recording) : SessionGroup :=
  let g2 := { group with
    recordingIds := group.recordingIds ++ [rec.id]
    lastTimestamp := rec.timestamp
    requestCount := group.requestCount + 1 }
  let g3 :=
    if containsString g2.providers rec.provider then g2
    else { g2 with providers := g2.providers ++ [rec.provider] }
  if rec.error ≠ "" ∨ 400 ≤ rec.response.status then { g3 with hasErrors := true } else g3

/-- `SessionGroupIndex.AddRecording`. Returns the updated index and the error
(`some` models the size-limit failure; note that a missing group is created
before the size check, exactly as in the source). -/
def addRecording (idx : SessionGroupIndex) (rec : Recording) :
    SessionGroupIndex × Option String :=
  match extractGroupKey rec with
  | (groupKey, isTraceID) =>
  if groupKey = "" then (idx, none)
  else
    let idx1 : SessionGroupIndex :=
      match alistGet idx.groups groupKey with
      | some _ => idx
      | none =>
        let g0 : SessionGroup :=
          { traceId := "", sessionId := "", recordingIds := [],
            firstTimestamp := rec.timestamp, lastTimestamp := 0,
            requestCount := 0, providers := [], hasErrors := false }
        if isTraceID then
          let sessionID := extractSessionID rec
          let g1 := { g0 with traceId := groupKey, sessionId := sessionID }
          { idx with
            groups := alistPut idx.groups groupKey g1
            bySessionId :=
              if sessionID ≠ "" then alistPut idx.bySessionId sessionID groupKey
              else idx.bySessionId
            totalGroups := idx.totalGroups + 1 }
        else
          let g1 := { g0 with sessionId := groupKey }
          { idx with
            groups := alistPut idx.groups groupKey g1
            bySessionId := alistPut idx.bySessionId groupKey groupKey
            totalGroups := idx.totalGroups + 1 }
    match alistGet idx1.groups groupKey with
    | none => (idx1, none)
    | some group =>
      if maxRecordingsPerGroup ≤ group.recordingIds.length then
        (idx1, some "size limit exceeded")
      else
        ({ idx1 with
            groups := alistPut idx1.groups groupKey (updateGroup group rec)
            byRecordingId := alistPut idx1.byRecordingId rec.id groupKey
            dirty := true
            saveCount := idx1.saveCount + 1 }, none)

/-- Fold a sequence of `AddRecording` calls from the fresh index (errors are
swallowed by the caller `Manager.OnRecordingWrite`). -/
def addAll (recs : List Recording) : SessionGroupIndex :=
  recs.foldl (fun idx rec => (addRecording idx rec).1) emptySessionIndex

/-! ## Provider router

Modelled from the spec: the `proxy` package containing `identifyProvider`
and `isGeminiPath` is not among the provided sources (only its tests in
`internal/ui/ui.go` reference it). The rules below transcribe §4.A of the
spec: Gemini shapes first (`/{v1|v1beta|v1alpha}/models/…:<op>` — a colon
after `models/` is the discriminator — plus the resource and upload paths),
then the Claude paths, then the OpenAI prefixes, else unknown. The tests
represent `unknown` as the empty provider string, which this model follows. -/

/-- Modelled from the spec: the `models/…:<op>` Gemini discriminator for one
version prefix; `n` is the length of `pfx`. -/
def geminiModelsColon (path : String) (pfx : String) (n : Nat) : Bool :=
  strHasPrefix path pfx && strContainsChar (strDropChars path n) ':'

/-- Modelled from the spec: the non-`models` Gemini resource shapes
(`files`, `cachedContents`, `corpora`, `tunedModels`, `batches` under each
version prefix), each matched exactly or followed by a slash. -/
def geminiResourcePaths : List (String × String) :=
  [("/v1/files", "/v1/files/"),
   ("/v1/cachedContents", "/v1/cachedContents/"),
   ("/v1/corpora", "/v1/corpora/"),
   ("/v1/tunedModels", "/v1/tunedModels/"),
   ("/v1/batches", "/v1/batches/"),
   ("/v1beta/files", "/v1beta/files/"),
   ("/v1beta/cachedContents", "/v1beta/cachedContents/"),
   ("/v1beta/corpora", "/v1beta/corpora/"),
   ("/v1beta/tunedModels", "/v1beta/tunedModels/"),
   ("/v1beta/batches", "/v1beta/batches/"),
   ("/v1alpha/files", "/v1alpha/files/"),
   ("/v1alpha/cachedContents", "/v1alpha/cachedContents/"),
   ("/v1alpha/corpora", "/v1alpha/corpora/"),
   ("/v1alpha/tunedModels", "/v1alpha/tunedModels/"),
   ("/v1alpha/batches", "/v1alpha/batches/")]

/-- Modelled from the spec: `isGeminiPath`. -/
def isGeminiPath (path : String) : Bool :=
  geminiModelsColon path "/v1/models/" 11 ||
  geminiModelsColon path "/v1beta/models/" 15 ||
  geminiModelsColon path "/v1alpha/models/" 16 ||
  geminiResourcePaths.any (fun pr => path == pr.1 || strHasPrefix path pr.2) ||
  strHasPrefix path "/upload/v1/files" ||
  strHasPrefix path "/upload/v1beta/files" ||
  strHasPrefix path "/upload/v1alpha/files"

/-- Modelled from the spec: the OpenAI path prefixes. -/
def openaiPathPrefixes : List String :=
  ["/v1/chat/completions", "/v1/completions", "/v1/embeddings", "/v1/models", "/v1/responses"]

/-- Modelled from the spec: `identifyProvider`; `""` is the unknown tag. -/
def identifyProvider (path : String) : String :=
  if isGeminiPath path then "gemini"
  else if path == "/v1/messages" || strHasPrefix path "/v1/messages/" ||
      path == "/v1/complete" then "claude"
  else if openaiPathPrefixes.any (fun p => strHasPrefix path p) then "openai"
  else ""

/-! ## Read API redaction (`internal/api`, `redactRecording`) -/

/-- The sensitive-header substrings of `isSensitiveHeader`. -/
def sensitiveHeaderPatterns : List String :=
  ["authorization", "x-api-key", "api-key", "cookie", "set-cookie"]

/-- `Handlers.isSensitiveHeader`: the lowercased name contains one of the
patterns. -/
def isSensitiveHeader (name : String) : Bool :=
  sensitiveHeaderPatterns.any (fun pat => strContainsSub (strLower name) pat)

/-- The header-map clone of `redactRecording`: sensitive headers get the
value list `["[REDACTED]"]`, others are copied unchanged. -/
def redactHeaders (headers : List (String × List String)) : List (String × List String) :=
  headers.map (fun kv => if isSensitiveHeader kv.1 then (kv.1, ["[REDACTED]"]) else kv)

/-- `Handlers.redactRecording`. -/
def redactRecording (rec : Recording) : Recording :=
  let rec1 := { rec with request := { rec.request with headers := redactHeaders rec.request.headers } }
  let rec2 := { rec1 with response := { rec1.response with headers := redactHeaders rec1.response.headers } }
  match rec2.request.body with
  | some (.jobj bodyMap) =>
    match jLookup bodyMap "api_key" with
    | some _ =>
      { rec2 with request :=
          { rec2.request with body := some (.jobj (jSet bodyMap "api_key" (.jstr "[REDACTED]"))) } }
    | none => rec2
  | _ => rec2

/-! ## General lemmas about the string helpers -/

/-- The claim-side sensitivity predicate: the header name case-insensitively
contains `authorization`, `api-key`, `cookie`, or `set-cookie`. -/
def specSensitiveHeader (name : String) : Bool :=
  strContainsSub (strLower name) "authorization" ||
  strContainsSub (strLower name) "api-key" ||
  strContainsSub (strLower name) "cookie" ||
  strContainsSub (strLower name) "set-cookie"

/-- The claim-side body redaction: a JSON object body with a top-level
`api_key` key has that value replaced by `[REDACTED]`; every other body is
returned unchanged. -/
def specRedactBody : Option JValue → Option JValue
  | some (.jobj fields) =>
    match jLookup fields "api_key" with
    | some _ => some (.jobj (jSet fields "api_key" (.jstr "[REDACTED]")))
    | none => some (.jobj fields)
  | b => b

/-- The concrete recording refuting the session half of claim C6: its
`user_id` contains the literal `_session_` twice, so the split yields three
segments and the source returns `""` although segment 1 is non-empty. -/
def c6Recording : Recording :=
  { id := "20251203-c6", timestamp := 0, provider := "claude"
    request :=
      { method := "POST", path := "/v1/messages", query := "", headers := []
        body := some (.jobj [("metadata", .jobj [("user_id", .jstr "a_session_b_session_c")])]) }
    response := { status := 200, headers := [], body := none, streaming := false }
    responseSize := 0
    timing := { startedAt := 0, completedAt := 0, durationMs := 0 }
    error := "" }

/-- The claim-side session extraction as amended: segment 1 of the split on
the literal `_session_`, provided the split yields exactly two segments
(`user_id` contains exactly one occurrence of the marker) and that segment
is non-empty; `""` otherwise. -/
def specSessionIdOfUser (userID : String) : String :=
  let parts := strSplitOn userID "_session_"
  if parts.length = 2 ∧ parts.getD 1 "" ≠ "" then parts.getD 1 "" else ""

/-- The `delta.text` contribution of one decoded event payload: the text of
a `text_delta`, and `""` for every other delta shape. -/
def dataTextDelta (data : JObj) : String :=
  match jLookup data "delta" with
  | some (.jobj delta) =>
    let dt := match jLookup delta "type" with
      | some (.jstr t) => t
      | _ => ""
    if dt = "text_delta" then
      match jLookup delta "text" with
      | some (.jstr t) => t
      | _ => ""
    else ""
  | _ => ""

/-- The claim-side text contribution of one recorded event: the `delta.text`
value of a `content_block_delta` event whose `delta.type` is `text_delta`,
and `""` otherwise (thinking and tool-input deltas contribute nothing). -/
def eventTextDelta (e : Event) : String :=
  if e.type = "content_block_delta" then dataTextDelta e.data else ""

/-- Concatenation, in arrival order, of the text-delta contributions of a
list of events. -/
def textDeltaConcat (events : List Event) : String :=
  events.foldl (fun acc e => acc ++ eventTextDelta e) ""

/-- A concrete decode function for the Claude witness: payload tags stand
for the JSON documents of the source's test stream. -/
def c4Decode : String → Option JObj := fun s =>
  if s = "MS" then some [("message", .jobj [("model", .jstr "m1")])]
  else if s = "D1" then some [("delta", .jobj [("type", .jstr "text_delta"), ("text", .jstr "Hello")])]
  else if s = "TH" then some [("delta", .jobj [("type", .jstr "thinking_delta"), ("thinking", .jstr "hm")])]
  else if s = "D2" then some [("delta", .jobj [("type", .jstr "text_delta"), ("text", .jstr " world")])]
  else if s = "STOP" then some []
  else none

/-- The concrete Claude SSE body for the witness (with an invalid `ping`
payload, a thinking delta, and two text deltas). -/
def c4Body : String :=
  "event: message_start\ndata: MS\n\nevent: content_block_delta\ndata: D1\n\nevent: ping\ndata: PING\n\nevent: content_block_delta\ndata: TH\n\nevent: content_block_delta\ndata: D2\n\nevent: message_stop\ndata: STOP\n"

/-- The contents of the trimmed `data: ` lines of a line list, in order (the
lines both the OpenAI and the Gemini loop act on). -/
def dataContentsOfLines (lines : List String) : List String :=
  lines.filterMap (fun line =>
    if strHasPrefix (strTrim line) "data: " then some (strDropChars (strTrim line) 6) else none)

/-- The contents of the trimmed `data: ` lines of a body. -/
def dataContents (body : String) : List String :=
  dataContentsOfLines (strLines body)

/-- The event type a `data: ` line contributes: `done` for the `[DONE]`
marker, `chunk` otherwise. -/
def doneOrChunk (content : String) : String :=
  if content = "[DONE]" then "done" else "chunk"

/-- The claim-side text contribution of one decoded chunk:
`choices[0].delta.content` when it is a string, `""` otherwise. -/
def chunkChoiceText (chunk : JObj) : String :=
  match jLookup chunk "choices" with
  | some (.jarr (c0 :: _)) =>
    match c0 with
    | .jobj choice =>
      match jLookup choice "delta" with
      | some (.jobj delta) =>
        match jLookup delta "content" with
        | some (.jstr content) => content
        | _ => ""
      | _ => ""
    | _ => ""
  | _ => ""

/-- The claim-side text contribution of one recorded event (a `done` event
contributes nothing). -/
def eventChoiceText (e : Event) : String :=
  if e.type = "chunk" then chunkChoiceText e.data else ""

/-- Concatenation, in arrival order, of the `choices[0].delta.content`
contributions of a list of events. -/
def choiceTextConcat (events : List Event) : String :=
  events.foldl (fun acc e => acc ++ eventChoiceText e) ""

/-- The content a single `choices[0]` object contributes to `text`. -/
def choiceDeltaContent (choice : JObj) : String :=
  match jLookup choice "delta" with
  | some (.jobj delta) =>
    match jLookup delta "content" with
    | some (.jstr content) => content
    | _ => ""
  | _ => ""

/-- A decode function that fails on every payload (no payload is consulted
for the counterexample input, which consists of `[DONE]` lines only). -/
def decNone : String → Option JObj := fun _ => none

/-- A concrete decode function for the OpenAI witness. -/
def c5Decode : String → Option JObj := fun s =>
  if s = "C1" then
    some [("id", .jstr "chatcmpl-123"), ("model", .jstr "gpt-4"),
      ("choices", .jarr [.jobj [("delta",
        .jobj [("role", .jstr "assistant"), ("content", .jstr "Hello")])]])]
  else if s = "C2" then
    some [("choices", .jarr [.jobj [("delta", .jobj [("content", .jstr " world")]),
      ("finish_reason", .jstr "stop")]])]
  else none

/-- The concrete OpenAI SSE body for the witness: two chunks then the
`[DONE]` marker as the final data line. -/
def c5Body : String := "data: C1\n\ndata: C2\n\ndata: [DONE]\n"

/-- The (event type, accumulated payload) pairs the Claude line loop flushes
into `processEvent`, in order, independently of any decoding. -/
def claudeFlushedLines : List String → String → String → List (String × String)
  | [], et, dat => if et ≠ "" ∧ dat ≠ "" then [(et, dat)] else []
  | line :: rest, et, dat =>
    if strHasPrefix (strTrim line) "event: " then
      if et ≠ "" ∧ dat ≠ "" then
        (et, dat) :: claudeFlushedLines rest (strDropChars (strTrim line) 7) ""
      else claudeFlushedLines rest (strDropChars (strTrim line) 7) dat
    else if strHasPrefix (strTrim line) "data: " then
      claudeFlushedLines rest et
        (if dat ≠ "" then dat ++ "\n" ++ strDropChars (strTrim line) 6
         else strDropChars (strTrim line) 6)
    else if strTrim line = "" ∧ et ≠ "" ∧ dat ≠ "" then
      (et, dat) :: claudeFlushedLines rest "" ""
    else claudeFlushedLines rest et dat

/-- The flushed events of a whole Claude body. -/
def claudeFlushed (body : String) : List (String × String) :=
  claudeFlushedLines (strLines body) "" ""

/-- The invariant maintained while folding `AddRecording` over recordings
that all carry the same non-empty trace id `t`: the index holds exactly one
group, keyed by `t`, whose recording ids are exactly the processed ids in
order, whose first timestamp is the first recording's, whose last timestamp
is the last recording's and bounds every processed timestamp, whose provider
list is duplicate-free, and whose error flag holds exactly when some
processed recording failed. -/
def C7Inv (t : String) (done : List Recording) (idx : SessionGroupIndex) : Prop :=
  match done with
  | [] => idx = emptySessionIndex
  | d :: _ =>
    ∃ g lst, idx.groups = [(t, g)] ∧
      g.recordingIds = done.map Recording.id ∧
      g.firstTimestamp = d.timestamp ∧
      done.getLast? = some lst ∧
      g.lastTimestamp = lst.timestamp ∧
      (∀ r ∈ done, r.timestamp ≤ lst.timestamp) ∧
      g.providers.Nodup ∧
      (g.hasErrors = true ↔ ∃ r ∈ done, r.error ≠ "" ∨ 400 ≤ r.response.status)

/-- Whether the group keyed `t` currently records an error. -/
def groupHasErrors (idx : SessionGroupIndex) (t : String) : Bool :=
  match alistGet idx.groups t with
  | some g => g.hasErrors
  | none => false

/-- A concrete recording for the grouping claim: the trace id `tracecafe`
comes from the `Sentry-Trace` header `tracecafe-span`. -/
def c7Rec (rid : String) (ts : Int) : Recording :=
  { id := rid, timestamp := ts, provider := "claude"
    request := { method := "POST", path := "/v1/messages", query := ""
                 headers := [("Sentry-Trace", ["tracecafe-span"])], body := none }
    response := { status := 200, headers := [], body := none, streaming := false }
    responseSize := 0, timing := { startedAt := 0, completedAt := 0, durationMs := 0 }
    error := "" }

/-- The invariant maintained by a sequence of `writeRecording` calls: every
index entry locates, at its recorded offset inside its file, the marshalled
line (followed by its newline) of a write carrying that id; and every write
performed so far has an entry under its id. -/
def RecInv (marshal : Recording → List Char) (ws : List (String × Recording))
    (s : RecorderState) : Prop :=
  (∀ e ∈ s.entries, ∃ w ∈ ws, w.2.id = e.id ∧ ∃ pre post,
      fsRead s.files e.filename = pre ++ marshal w.2 ++ '\n' :: post ∧
      e.offset = pre.length) ∧
  (∀ w ∈ ws, ∃ e ∈ s.entries, e.id = w.2.id)

/-- A concrete Recording for the round-trip witness; its canonical id has
the 8-character date prefix `20990101`. -/
def c1Rec : Recording :=
  { id := "20990101-aaaa", timestamp := 11, provider := "claude"
    request := { method := "POST", path := "/v1/messages", query := "", headers := [], body := none }
    response := { status := 200, headers := [], body := none, streaming := false }
    responseSize := 0, timing := { startedAt := 0, completedAt := 11, durationMs := 11 }
    error := "" }

/-- A toy marshaller for the witness (standing for `json.Marshal` on the one
value written). -/
def c1Marshal : Recording → List Char := fun _ => ['j']

/-- The matching unmarshaller (standing for `json.Unmarshal`). -/
def c1Unmarshal : List Char → Option Recording := fun cs =>
  if cs = ['j', '\n'] then some c1Rec else none

/-- A toy minimal-field unmarshaller for the C2 witness: only the line
`good` is well formed. -/
def parseMeta0 : List Char → Option PartialMeta := fun cs =>
  if cs = "good".data then some { id := "id1", timestamp := 7, provider := "claude" }
  else none

/-- A toy array serializer for the C2 witness. -/
def serialize0 : List IndexEntry → List Char := fun _ => ['j']

/-- The entry the C2 directory rebuilds to: the malformed first line `bad`
was skipped, advancing the offset to 4. -/
def expectedEntries0 : List IndexEntry :=
  [{ id := "id1", filename := "recordings-2025-11-01.jsonl", offset := 4, length := 4,
     timestamp := 7, provider := "claude" }]

/-- The matching array deserializer for the C2 witness. -/
def deserialize0 : List Char → Option (List IndexEntry) := fun cs =>
  if cs = ['j'] then some expectedEntries0 else none

/-- The C2 witness state: one data file whose first line is malformed. -/
def c2State : IndexState :=
  { dir := [("recordings-2025-11-01.jsonl", ("bad" ++ "\n" ++ "good").data)],
    entries := [], indexFile := none, dirty := false }

theorem strHasPrefix_append_of (a b s : String) (h : strHasPrefix b a = true) :
    strHasPrefix (b ++ s) a = true := by
  simp only [strHasPrefix, String.data_append] at *
  rw [List.isPrefixOf_iff_prefix] at h ⊢
  exact h.trans (List.prefix_append _ _)

theorem strHasPrefix_append_false (a b s : String)
    (h1 : strHasPrefix a b = false) (h2 : strHasPrefix b a = false) :
    strHasPrefix (b ++ s) a = false := by
  simp only [strHasPrefix, String.data_append] at *
  rw [← Bool.not_eq_true] at h1 h2 ⊢
  rw [List.isPrefixOf_iff_prefix] at h1 h2 ⊢
  intro hcon
  rcases List.prefix_or_prefix_of_prefix hcon (List.prefix_append b.data s.data) with h | h
  · exact h2 h
  · exact h1 h

theorem append_ne_of_not_prefix (a b s : String) (h : strHasPrefix a b = false) :
    (b ++ s) ≠ a := by
  intro hcon
  rw [← Bool.not_eq_true, strHasPrefix, List.isPrefixOf_iff_prefix] at h
  apply h
  rw [← hcon, String.data_append]
  exact List.prefix_append _ _

theorem strDropChars_append (b s : String) (n : Nat) (h : n = b.data.length) :
    strDropChars (b ++ s) n = s := by
  apply String.ext
  simp [strDropChars, String.data_append, h, List.drop_left]

theorem subOccurs_iff_infix (pat cs : List Char) : subOccurs pat cs = true ↔ pat <:+: cs := by
  induction cs with
  | nil =>
    simp only [subOccurs, List.isEmpty_iff, List.infix_nil]
  | cons c rest ih =>
    simp only [subOccurs, Bool.or_eq_true, List.isPrefixOf_iff_prefix, ih,
      List.infix_cons_iff]

theorem strContainsSub_of_infix (s : String) (p q : String)
    (hpq : p.data <:+: q.data) (h : strContainsSub s q = true) :
    strContainsSub s p = true := by
  rw [strContainsSub, subOccurs_iff_infix] at h ⊢
  exact hpq.trans h

/-! ## Claim C8: the recorder queue -/

/-- Claim C8: `Record` is total for every queue state (the caller is never
delayed and no error is returned to it): on a disabled recorder the queue is
untouched; on a full channel (depth `queueCapacity = 100`) the new Recording
is dropped, the queue contents are unchanged and the warning flag is set,
with no retry; otherwise the recording is enqueued at the tail. -/
theorem record_nonblocking (q : List Recording) (rec : Recording) :
    queueCapacity = 100 ∧
    recordSend true q rec =
      (if q.length < queueCapacity then (q ++ [rec], false) else (q, true)) ∧
    recordSend false q rec = (q, false) := by
  refine ⟨rfl, ?_, by simp [recordSend]⟩
  by_cases h : q.length < queueCapacity <;> simp [recordSend, h]

/-! ## Claim C9: redaction of sensitive data -/

theorem isSensitiveHeader_eq_spec (name : String) :
    isSensitiveHeader name = specSensitiveHeader name := by
  simp only [isSensitiveHeader, sensitiveHeaderPatterns, specSensitiveHeader,
    List.any_cons, List.any_nil, Bool.or_false]
  cases hx : strContainsSub (strLower name) "x-api-key" with
  | false => cases strContainsSub (strLower name) "authorization" <;>
      cases strContainsSub (strLower name) "api-key" <;>
      cases strContainsSub (strLower name) "cookie" <;>
      cases strContainsSub (strLower name) "set-cookie" <;> rfl
  | true =>
    have hb : strContainsSub (strLower name) "api-key" = true :=
      strContainsSub_of_infix _ _ _ ⟨['x', '-'], [], rfl⟩ hx
    cases strContainsSub (strLower name) "authorization" <;>
      cases strContainsSub (strLower name) "cookie" <;>
      cases strContainsSub (strLower name) "set-cookie" <;> simp [hb]

/-- Claim C9: for every Recording returned by the Get endpoint, a request or
response header whose name case-insensitively contains `authorization`,
`api-key`, `cookie` or `set-cookie` has its value list replaced by
`["[REDACTED]"]`, every other header is unchanged, and a JSON-object request
body with a top-level `api_key` key has that value replaced by `[REDACTED]`;
all other fields are returned unchanged. -/
theorem redactRecording_spec (rec : Recording) :
    redactRecording rec =
      { rec with
          request :=
            { rec.request with
                headers := rec.request.headers.map
                  (fun kv => if specSensitiveHeader kv.1 then (kv.1, ["[REDACTED]"]) else kv)
                body := specRedactBody rec.request.body }
          response :=
            { rec.response with
                headers := rec.response.headers.map
                  (fun kv => if specSensitiveHeader kv.1 then (kv.1, ["[REDACTED]"]) else kv) } } := by
  have hh : ∀ hs : List (String × List String),
      redactHeaders hs = hs.map
        (fun kv => if specSensitiveHeader kv.1 then (kv.1, ["[REDACTED]"]) else kv) := by
    intro hs
    simp [redactHeaders, isSensitiveHeader_eq_spec]
  cases rec with
  | mk id timestamp provider request response responseSize timing error =>
    cases request with
    | mk method path query headers body =>
      cases body with
      | none => simp [redactRecording, specRedactBody, hh]
      | some bv =>
        cases bv with
        | jobj fields =>
          cases hl : jLookup fields "api_key" with
          | none => simp [redactRecording, specRedactBody, hh, hl]
          | some v => simp [redactRecording, specRedactBody, hh, hl]
        | jnull => simp [redactRecording, specRedactBody, hh]
        | jbool b => simp [redactRecording, specRedactBody, hh]
        | jnum n => simp [redactRecording, specRedactBody, hh]
        | jstr s => simp [redactRecording, specRedactBody, hh]
        | jarr a => simp [redactRecording, specRedactBody, hh]

/-! ## Claim C6: trace and session extraction -/

/-- Claim C6 counterexample: for the request body
`metadata.user_id = "a_session_b_session_c"`, segment 1 of the split on
`_session_` is the non-empty string `"b"`, so the claim as stated requires
`extract_session_id` to return `"b"`; the code returns `""` because
`strings.Split` yields three segments and the source demands exactly two. -/
theorem extractSessionID_counterexample :
    (strSplitOn "a_session_b_session_c" "_session_").getD 1 "" = "b" ∧
    extractSessionID c6Recording = "" ∧ extractSessionID c6Recording ≠ "b" :=
  ⟨by decide, by decide, by decide⟩

theorem traceIdFromHeaders_none (hs : List (String × List String))
    (h : ∀ kv ∈ hs, strEqFold kv.1 "Sentry-Trace" = false) :
    traceIdFromHeaders hs = "" := by
  induction hs with
  | nil => rfl
  | cons kv rest ih =>
    have hkv := h kv (List.mem_cons_self kv rest)
    rw [show kv = (kv.1, kv.2) from rfl, traceIdFromHeaders]
    simp only [hkv]
    simp only [Bool.false_eq_true, false_and, if_false]
    exact ih (fun x hx => h x (List.mem_cons_of_mem kv hx))

theorem traceIdFromHeaders_found (pre post : List (String × List String))
    (k : String) (v : String) (vrest : List String)
    (hk : strEqFold k "Sentry-Trace" = true)
    (hpre : ∀ kv ∈ pre, strEqFold kv.1 "Sentry-Trace" = false)
    (hpost : ∀ kv ∈ post, strEqFold kv.1 "Sentry-Trace" = false) :
    traceIdFromHeaders (pre ++ (k, v :: vrest) :: post) = (strSplitOn v "-").headD "" := by
  induction pre with
  | nil =>
    rw [List.nil_append, traceIdFromHeaders]
    by_cases hseg : (strSplitOn v "-").head?.getD "" = ""
    · simp [hk, hseg, List.headD_eq_head?_getD, traceIdFromHeaders_none post hpost]
    · simp [hk, hseg, List.headD_eq_head?_getD]
  | cons kv rest ih =>
    have hkv := hpre kv (List.mem_cons_self kv rest)
    rw [List.cons_append, show kv = (kv.1, kv.2) from rfl, traceIdFromHeaders]
    simp only [hkv, Bool.false_eq_true, false_and, if_false]
    exact ih (fun x hx => hpre x (List.mem_cons_of_mem kv hx))

/-- Claim C6 (amended): `extract_trace_id` returns segment 0 of the first
value of the unique header whose name case-insensitively equals
`Sentry-Trace` split on `-` (which is `""` exactly when that segment is
empty), and `""` when no header matches; `extract_session_id` returns
segment 1 of `request.body.metadata.user_id` split on the literal
`_session_` when the split yields exactly two segments (amendment: the code
requires exactly one occurrence of `_session_`, not merely a non-empty
segment 1) and that segment is non-empty, `""` otherwise. -/
theorem extractors_spec :
    (∀ (rec : Recording) (pre post : List (String × List String))
        (k : String) (v : String) (vrest : List String),
      rec.request.headers = pre ++ (k, v :: vrest) :: post →
      strEqFold k "Sentry-Trace" = true →
      (∀ kv ∈ pre, strEqFold kv.1 "Sentry-Trace" = false) →
      (∀ kv ∈ post, strEqFold kv.1 "Sentry-Trace" = false) →
      extractTraceID rec = (strSplitOn v "-").headD "") ∧
    (∀ rec : Recording,
      (∀ kv ∈ rec.request.headers, strEqFold kv.1 "Sentry-Trace" = false) →
      extractTraceID rec = "") ∧
    (∀ (rec : Recording) (bodyMap metadata : JObj) (userID : String),
      rec.request.body = some (.jobj bodyMap) →
      jLookup bodyMap "metadata" = some (.jobj metadata) →
      jLookup metadata "user_id" = some (.jstr userID) →
      extractSessionID rec = specSessionIdOfUser userID) := by
  refine ⟨?_, ?_, ?_⟩
  · intro rec pre post k v vrest hh hk hpre hpost
    rw [extractTraceID, hh]
    exact traceIdFromHeaders_found pre post k v vrest hk hpre hpost
  · intro rec h
    exact traceIdFromHeaders_none _ h
  · intro rec bodyMap metadata userID hb hm hu
    simp only [extractSessionID, hb, hm, hu, specSessionIdOfUser]
    rcases hp : strSplitOn userID "_session_" with _ | ⟨a, _ | ⟨b, _ | ⟨c, rest⟩⟩⟩
    · simp [hp]
    · simp [hp]
    · by_cases hb2 : b = "" <;> simp [hp, hb2]
    · simp [hp]

/-- Witness for the amended claim C6, applying each conjunct at the concrete
test vectors of the source: the `Sentry-Trace` header
`41cb435ca2a6434b913b733d81c463ae-span123` and the session `user_id`
`user_abc123_account_def456_session_c593e22f-34d1-4dee-9937-d718f1e95aec`. -/
theorem extractors_spec_witness :
    extractTraceID
      { id := "", timestamp := 0, provider := ""
        request := { method := "", path := "", query := ""
                     headers := [("Sentry-Trace", ["41cb435ca2a6434b913b733d81c463ae-span123"])]
                     body := none }
        response := { status := 0, headers := [], body := none, streaming := false }
        responseSize := 0, timing := { startedAt := 0, completedAt := 0, durationMs := 0 }
        error := "" } = "41cb435ca2a6434b913b733d81c463ae" ∧
    extractSessionID
      { id := "", timestamp := 0, provider := ""
        request := { method := "", path := "", query := "", headers := []
                     body := some (.jobj [("metadata", .jobj [("user_id",
                       .jstr "user_abc123_account_def456_session_c593e22f-34d1-4dee-9937-d718f1e95aec")])]) }
        response := { status := 0, headers := [], body := none, streaming := false }
        responseSize := 0, timing := { startedAt := 0, completedAt := 0, durationMs := 0 }
        error := "" } = "c593e22f-34d1-4dee-9937-d718f1e95aec" := by
  constructor
  · have h := extractors_spec.1
      { id := "", timestamp := 0, provider := ""
        request := { method := "", path := "", query := ""
                     headers := [("Sentry-Trace", ["41cb435ca2a6434b913b733d81c463ae-span123"])]
                     body := none }
        response := { status := 0, headers := [], body := none, streaming := false }
        responseSize := 0, timing := { startedAt := 0, completedAt := 0, durationMs := 0 }
        error := "" }
      [] [] "Sentry-Trace" "41cb435ca2a6434b913b733d81c463ae-span123" []
      rfl (by decide) (by intro kv hkv; cases hkv) (by intro kv hkv; cases hkv)
    rw [h]
    decide
  · have h := extractors_spec.2.2
      { id := "", timestamp := 0, provider := ""
        request := { method := "", path := "", query := "", headers := []
                     body := some (.jobj [("metadata", .jobj [("user_id",
                       .jstr "user_abc123_account_def456_session_c593e22f-34d1-4dee-9937-d718f1e95aec")])]) }
        response := { status := 0, headers := [], body := none, streaming := false }
        responseSize := 0, timing := { startedAt := 0, completedAt := 0, durationMs := 0 }
        error := "" }
      [("metadata", .jobj [("user_id",
        .jstr "user_abc123_account_def456_session_c593e22f-34d1-4dee-9937-d718f1e95aec")])]
      [("user_id", .jstr "user_abc123_account_def456_session_c593e22f-34d1-4dee-9937-d718f1e95aec")]
      "user_abc123_account_def456_session_c593e22f-34d1-4dee-9937-d718f1e95aec"
      rfl rfl rfl
    rw [h]
    decide

/-! ## Claim C3: the provider router -/

theorem geminiResources_append_false (b s : String)
    (H : ∀ pr ∈ geminiResourcePaths,
      strHasPrefix pr.1 b = false ∧ strHasPrefix pr.2 b = false ∧ strHasPrefix b pr.2 = false) :
    (geminiResourcePaths.any (fun pr => (b ++ s) == pr.1 || strHasPrefix (b ++ s) pr.2)) = false := by
  rw [List.any_eq_false]
  intro pr hpr
  obtain ⟨h1, h2, h3⟩ := H pr hpr
  have e1 : ((b ++ s) == pr.1) = false := by
    rw [beq_eq_false_iff_ne]
    exact append_ne_of_not_prefix pr.1 b s h1
  simp [e1, strHasPrefix_append_false pr.2 b s h2 h3]

theorem anyPrefix_append_false (l : List String) (b s : String)
    (H : ∀ a ∈ l, strHasPrefix a b = false ∧ strHasPrefix b a = false) :
    (l.any fun p => strHasPrefix (b ++ s) p) = false := by
  rw [List.any_eq_false]
  intro a ha
  obtain ⟨h1, h2⟩ := H a ha
  simp [strHasPrefix_append_false a b s h1 h2]

theorem isGeminiPath_models (s : String) :
    isGeminiPath ("/v1/models/" ++ s) = strContainsChar s ':' := by
  have h1 : strHasPrefix ("/v1/models/" ++ s) "/v1/models/" = true :=
    strHasPrefix_append_of _ _ _ (by decide)
  have hd : strDropChars ("/v1/models/" ++ s) 11 = s :=
    strDropChars_append _ _ _ (by decide)
  have h2 : strHasPrefix ("/v1/models/" ++ s) "/v1beta/models/" = false :=
    strHasPrefix_append_false _ _ _ (by decide) (by decide)
  have h3 : strHasPrefix ("/v1/models/" ++ s) "/v1alpha/models/" = false :=
    strHasPrefix_append_false _ _ _ (by decide) (by decide)
  have h4 := geminiResources_append_false "/v1/models/" s (by decide)
  have h5 : strHasPrefix ("/v1/models/" ++ s) "/upload/v1/files" = false :=
    strHasPrefix_append_false _ _ _ (by decide) (by decide)
  have h6 : strHasPrefix ("/v1/models/" ++ s) "/upload/v1beta/files" = false :=
    strHasPrefix_append_false _ _ _ (by decide) (by decide)
  have h7 : strHasPrefix ("/v1/models/" ++ s) "/upload/v1alpha/files" = false :=
    strHasPrefix_append_false _ _ _ (by decide) (by decide)
  cases hc : strContainsChar s ':' with
  | true => simp [isGeminiPath, geminiModelsColon, h1, hd, hc]
  | false => simp [isGeminiPath, geminiModelsColon, h1, h2, h3, h4, h5, h6, h7, hd, hc]

theorem isGeminiPath_messages (s : String) :
    isGeminiPath ("/v1/messages/" ++ s) = false := by
  have h1 : strHasPrefix ("/v1/messages/" ++ s) "/v1/models/" = false :=
    strHasPrefix_append_false _ _ _ (by decide) (by decide)
  have h2 : strHasPrefix ("/v1/messages/" ++ s) "/v1beta/models/" = false :=
    strHasPrefix_append_false _ _ _ (by decide) (by decide)
  have h3 : strHasPrefix ("/v1/messages/" ++ s) "/v1alpha/models/" = false :=
    strHasPrefix_append_false _ _ _ (by decide) (by decide)
  have h4 := geminiResources_append_false "/v1/messages/" s (by decide)
  have h5 : strHasPrefix ("/v1/messages/" ++ s) "/upload/v1/files" = false :=
    strHasPrefix_append_false _ _ _ (by decide) (by decide)
  have h6 : strHasPrefix ("/v1/messages/" ++ s) "/upload/v1beta/files" = false :=
    strHasPrefix_append_false _ _ _ (by decide) (by decide)
  have h7 : strHasPrefix ("/v1/messages/" ++ s) "/upload/v1alpha/files" = false :=
    strHasPrefix_append_false _ _ _ (by decide) (by decide)
  simp [isGeminiPath, geminiModelsColon, h1, h2, h3, h4, h5, h6, h7]

theorem isGeminiPath_v2 (s : String) : isGeminiPath ("/v2/" ++ s) = false := by
  have h1 : strHasPrefix ("/v2/" ++ s) "/v1/models/" = false :=
    strHasPrefix_append_false _ _ _ (by decide) (by decide)
  have h2 : strHasPrefix ("/v2/" ++ s) "/v1beta/models/" = false :=
    strHasPrefix_append_false _ _ _ (by decide) (by decide)
  have h3 : strHasPrefix ("/v2/" ++ s) "/v1alpha/models/" = false :=
    strHasPrefix_append_false _ _ _ (by decide) (by decide)
  have h4 := geminiResources_append_false "/v2/" s (by decide)
  have h5 : strHasPrefix ("/v2/" ++ s) "/upload/v1/files" = false :=
    strHasPrefix_append_false _ _ _ (by decide) (by decide)
  have h6 : strHasPrefix ("/v2/" ++ s) "/upload/v1beta/files" = false :=
    strHasPrefix_append_false _ _ _ (by decide) (by decide)
  have h7 : strHasPrefix ("/v2/" ++ s) "/upload/v1alpha/files" = false :=
    strHasPrefix_append_false _ _ _ (by decide) (by decide)
  simp [isGeminiPath, geminiModelsColon, h1, h2, h3, h4, h5, h6, h7]

/-- Claim C3: the provider router (modelled from spec §4.A; the empty string
is the unknown tag, as in the source's tests) classifies
`/v1/models/<id>:<op>` (any suffix containing a colon) as gemini,
`/v1/models/<suffix>` without a colon as openai, `/v1/messages`,
`/v1/messages/<suffix>` and `/v1/complete` as claude, and every `/v2/...`
path as unknown. -/
theorem identifyProvider_classification :
    (∀ s : String, strContainsChar s ':' = true →
      identifyProvider ("/v1/models/" ++ s) = "gemini") ∧
    (∀ s : String, strContainsChar s ':' = false →
      identifyProvider ("/v1/models/" ++ s) = "openai") ∧
    (identifyProvider "/v1/messages" = "claude" ∧
      identifyProvider "/v1/complete" = "claude" ∧
      (∀ s : String, identifyProvider ("/v1/messages/" ++ s) = "claude")) ∧
    (∀ s : String, identifyProvider ("/v2/" ++ s) = "") := by
  refine ⟨?_, ?_, ⟨by decide, by decide, ?_⟩, ?_⟩
  · intro s hc
    simp [identifyProvider, isGeminiPath_models s, hc]
  · intro s hc
    have hcl1 : (("/v1/models/" ++ s) == "/v1/messages") = false := by
      rw [beq_eq_false_iff_ne]
      exact append_ne_of_not_prefix _ _ _ (by decide)
    have hcl2 : strHasPrefix ("/v1/models/" ++ s) "/v1/messages/" = false :=
      strHasPrefix_append_false _ _ _ (by decide) (by decide)
    have hcl3 : (("/v1/models/" ++ s) == "/v1/complete") = false := by
      rw [beq_eq_false_iff_ne]
      exact append_ne_of_not_prefix _ _ _ (by decide)
    have hoa : (openaiPathPrefixes.any fun p => strHasPrefix ("/v1/models/" ++ s) p) = true := by
      rw [List.any_eq_true]
      exact ⟨"/v1/models", by decide, strHasPrefix_append_of _ _ _ (by decide)⟩
    simp [identifyProvider, isGeminiPath_models s, hc, hcl1, hcl2, hcl3, hoa]
  · intro s
    have hcl : strHasPrefix ("/v1/messages/" ++ s) "/v1/messages/" = true :=
      strHasPrefix_append_of _ _ _ (by decide)
    simp [identifyProvider, isGeminiPath_messages s, hcl]
  · intro s
    have hcl1 : (("/v2/" ++ s) == "/v1/messages") = false := by
      rw [beq_eq_false_iff_ne]
      exact append_ne_of_not_prefix _ _ _ (by decide)
    have hcl2 : strHasPrefix ("/v2/" ++ s) "/v1/messages/" = false :=
      strHasPrefix_append_false _ _ _ (by decide) (by decide)
    have hcl3 : (("/v2/" ++ s) == "/v1/complete") = false := by
      rw [beq_eq_false_iff_ne]
      exact append_ne_of_not_prefix _ _ _ (by decide)
    have hoa := anyPrefix_append_false openaiPathPrefixes "/v2/" s (by decide)
    simp [identifyProvider, isGeminiPath_v2 s, hcl1, hcl2, hcl3, hoa]

/-- Witness for claim C3, applying the classification theorem at the
concrete routing examples of the spec. -/
theorem identifyProvider_classification_witness :
    identifyProvider "/v1/models/gemini-pro:generateContent" = "gemini" ∧
    identifyProvider "/v1/models/gemini-pro" = "openai" ∧
    identifyProvider "/v1/messages/abc" = "claude" ∧
    identifyProvider "/v2/messages" = "" :=
  ⟨identifyProvider_classification.1 "gemini-pro:generateContent" (by decide),
   identifyProvider_classification.2.1 "gemini-pro" (by decide),
   identifyProvider_classification.2.2.1.2.2 "abc",
   identifyProvider_classification.2.2.2 "messages"⟩

/-! ## Claim C4: Claude text reconstruction -/

theorem textDeltaConcat_snoc (events : List Event) (e : Event) :
    textDeltaConcat (events ++ [e]) = textDeltaConcat events ++ eventTextDelta e := by
  simp [textDeltaConcat, List.foldl_append]

theorem extractMessageStartMetadata_text (d : JObj) (p : ParsedStream) :
    (extractMessageStartMetadata d p).text = p.text := by
  simp only [extractMessageStartMetadata]
  repeat' split
  all_goals rfl

theorem extractMessageStartMetadata_events (d : JObj) (p : ParsedStream) :
    (extractMessageStartMetadata d p).events = p.events := by
  simp only [extractMessageStartMetadata]
  repeat' split
  all_goals rfl

theorem extractMessageDeltaMetadata_text (d : JObj) (p : ParsedStream) :
    (extractMessageDeltaMetadata d p).text = p.text := by
  simp only [extractMessageDeltaMetadata]
  repeat' split
  all_goals rfl

theorem extractMessageDeltaMetadata_events (d : JObj) (p : ParsedStream) :
    (extractMessageDeltaMetadata d p).events = p.events := by
  simp only [extractMessageDeltaMetadata]
  repeat' split
  all_goals rfl

theorem extractDeltaText_text (d : JObj) (p : ParsedStream) :
    (extractDeltaText d p).text = p.text ++ dataTextDelta d := by
  simp only [extractDeltaText, dataTextDelta]
  repeat' split
  all_goals simp_all

theorem extractDeltaText_events (d : JObj) (p : ParsedStream) :
    (extractDeltaText d p).events = p.events := by
  simp only [extractDeltaText]
  repeat' split
  all_goals rfl

theorem claudeProcessEvent_inv (decode : String → Option JObj) (et dat : String)
    (p p2 : ParsedStream) (h : claudeProcessEvent decode et dat p = some p2)
    (hp : p.text = textDeltaConcat p.events) :
    p2.text = textDeltaConcat p2.events := by
  rw [claudeProcessEvent] at h
  cases hd : decode dat with
  | none =>
    rw [hd] at h
    by_cases hping : et = "ping"
    · simp only [hping, if_true] at h
      injection h with h
      rw [← h]
      exact hp
    · simp [hping] at h
  | some ed =>
    rw [hd] at h
    have hq : ({ p with events := p.events ++ [{ type := et, data := ed }]} :
        ParsedStream).text =
        textDeltaConcat (p.events ++ [{ type := et, data := ed }]) ++ "" ∨ True := Or.inr trivial
    by_cases h1 : et = "message_start"
    · simp only [h1, if_true] at h
      injection h with h
      rw [← h, extractMessageStartMetadata_text, extractMessageStartMetadata_events]
      show p.text = textDeltaConcat (p.events ++ [{ type := "message_start", data := ed }])
      rw [textDeltaConcat_snoc, hp]
      simp [eventTextDelta]
    · by_cases h2 : et = "content_block_delta"
      · simp only [h1, h2, if_false, if_true] at h
        injection h with h
        rw [← h, extractDeltaText_text, extractDeltaText_events]
        show p.text ++ dataTextDelta ed =
          textDeltaConcat (p.events ++ [{ type := "content_block_delta", data := ed }])
        rw [textDeltaConcat_snoc, hp]
        simp [eventTextDelta]
      · by_cases h3 : et = "message_delta"
        · simp only [h1, h2, h3, if_false, if_true] at h
          injection h with h
          rw [← h, extractMessageDeltaMetadata_text, extractMessageDeltaMetadata_events]
          show p.text = textDeltaConcat (p.events ++ [{ type := "message_delta", data := ed }])
          rw [textDeltaConcat_snoc, hp]
          simp [eventTextDelta]
        · simp only [h1, h2, h3, if_false] at h
          injection h with h
          rw [← h]
          show p.text = textDeltaConcat (p.events ++ [{ type := et, data := ed }])
          rw [textDeltaConcat_snoc, hp]
          simp [eventTextDelta, h2]

theorem claudeParseLines_inv (decode : String → Option JObj) (lines : List String) :
    ∀ (et dat : String) (p p2 : ParsedStream),
    claudeParseLines decode lines et dat p = some p2 →
    p.text = textDeltaConcat p.events →
    p2.text = textDeltaConcat p2.events := by
  induction lines with
  | nil =>
    intro et dat p p2 h hp
    rw [claudeParseLines] at h
    split at h
    · exact claudeProcessEvent_inv decode et dat p p2 h hp
    · injection h with h
      rw [← h]
      exact hp
  | cons line rest ih =>
    intro et dat p p2 h hp
    rw [claudeParseLines] at h
    split at h
    · split at h
      · cases hq : claudeProcessEvent decode et dat p with
        | none => rw [hq] at h; cases h
        | some q =>
          rw [hq] at h
          exact ih _ _ _ _ h (claudeProcessEvent_inv decode et dat p q hq hp)
      · exact ih _ _ _ _ h hp
    · split at h
      · exact ih _ _ _ _ h hp
      · split at h
        · cases hq : claudeProcessEvent decode et dat p with
          | none => rw [hq] at h; cases h
          | some q =>
            rw [hq] at h
            exact ih _ _ _ _ h (claudeProcessEvent_inv decode et dat p q hq hp)
        · exact ih _ _ _ _ h hp

/-- Claim C4: for every decode function and every input the Claude parser
accepts, the `Text` field equals the concatenation, in arrival order, of the
`delta.text` values of the `content_block_delta` events whose `delta.type`
is `text_delta` (thinking and tool-input deltas contribute to metadata, not
to `Text`). -/
theorem claudeParse_text_spec (decode : String → Option JObj) (body : String)
    (p : ParsedStream) (h : claudeParse decode body = some p) :
    p.text = textDeltaConcat p.events :=
  claudeParseLines_inv decode (strLines body) "" ""
    { provider := "claude", events := [], text := "", metadata := [] } p h rfl

set_option maxRecDepth 4000 in
/-- Witness for claim C4 at a concrete stream: the parse succeeds with
`Text = "Hello world"`, and the theorem instance shows it equals the
text-delta concatenation. -/
theorem claudeParse_text_spec_witness :
    (claudeParse c4Decode c4Body).map ParsedStream.text = some "Hello world" ∧
    (claudeParse c4Decode c4Body).map ParsedStream.text =
      (claudeParse c4Decode c4Body).map (fun p => textDeltaConcat p.events) := by
  refine ⟨by rfl, ?_⟩
  cases hq : claudeParse c4Decode c4Body with
  | none => rfl
  | some p => simp [claudeParse_text_spec c4Decode c4Body p hq]

/-! ## Claim C5: OpenAI text reconstruction and the `[DONE]` marker -/

theorem choiceTextConcat_snoc (events : List Event) (e : Event) :
    choiceTextConcat (events ++ [e]) = choiceTextConcat events ++ eventChoiceText e := by
  simp [choiceTextConcat, List.foldl_append]

theorem openaiFirstChunkMeta_text (d : JObj) (p : ParsedStream) :
    (openaiFirstChunkMeta d p).text = p.text := by
  simp only [openaiFirstChunkMeta]
  repeat' split
  all_goals rfl

theorem openaiFirstChunkMeta_events (d : JObj) (p : ParsedStream) :
    (openaiFirstChunkMeta d p).events = p.events := by
  simp only [openaiFirstChunkMeta]
  repeat' split
  all_goals rfl

theorem openaiUsage_text (d : JObj) (p : ParsedStream) :
    (openaiUsage d p).text = p.text := by
  simp only [openaiUsage]
  repeat' split
  all_goals rfl

theorem openaiUsage_events (d : JObj) (p : ParsedStream) :
    (openaiUsage d p).events = p.events := by
  simp only [openaiUsage]
  repeat' split
  all_goals rfl

theorem openaiExtractToolCalls_text (tc : List JValue) (p : ParsedStream) :
    (openaiExtractToolCalls tc p).text = p.text := rfl

theorem openaiExtractToolCalls_events (tc : List JValue) (p : ParsedStream) :
    (openaiExtractToolCalls tc p).events = p.events := rfl

theorem openaiChoiceData_text (choice : JObj) (p : ParsedStream) :
    (openaiChoiceData choice p).text = p.text ++ choiceDeltaContent choice := by
  simp only [openaiChoiceData, choiceDeltaContent]
  repeat' split
  all_goals
    simp_all [openaiExtractToolCalls_text, openaiFirstChunkMeta_text, String.append_empty,
      jLookup]

theorem openaiChoiceData_events (choice : JObj) (p : ParsedStream) :
    (openaiChoiceData choice p).events = p.events := by
  simp only [openaiChoiceData]
  repeat' split
  all_goals simp_all [openaiExtractToolCalls_events]

theorem openaiProcessChunk_shape (decode : String → Option JObj) (dat : String)
    (p q : ParsedStream) (h : openaiProcessChunk decode dat p = some q) :
    ∃ chunk, decode dat = some chunk ∧
      q.events = p.events ++ [{ type := "chunk", data := chunk }] ∧
      q.text = p.text ++ chunkChoiceText chunk := by
  cases hd : decode dat with
  | none =>
    rw [openaiProcessChunk] at h
    simp only [hd] at h
    exact Option.noConfusion h
  | some chunk =>
    rw [openaiProcessChunk] at h
    simp only [hd] at h
    refine ⟨chunk, rfl, ?_⟩
    revert h
    cases hc : jLookup chunk "choices" with
    | none =>
      intro h
      injection h with h
      rw [← h]
      constructor <;>
        (try simp only [openaiUsage_events, openaiUsage_text, openaiChoiceData_events, openaiChoiceData_text]) <;>
        split <;>
        simp [openaiFirstChunkMeta_events, openaiFirstChunkMeta_text,
          chunkChoiceText, hc, String.append_empty]
    | some cv =>
      cases cv with
      | jarr cs =>
        cases cs with
        | nil =>
          intro h
          injection h with h
          rw [← h]
          constructor <;>
            (try simp only [openaiUsage_events, openaiUsage_text, openaiChoiceData_events, openaiChoiceData_text]) <;>
            split <;>
            simp [openaiFirstChunkMeta_events, openaiFirstChunkMeta_text,
              chunkChoiceText, hc, String.append_empty]
        | cons c0 crest =>
          intro h
          injection h with h
          rw [← h]
          cases c0 <;>
            constructor <;>
            (try simp only [openaiUsage_events, openaiUsage_text, openaiChoiceData_events, openaiChoiceData_text]) <;>
            split <;>
            simp [openaiFirstChunkMeta_events, openaiFirstChunkMeta_text,
              openaiUsage_events, openaiUsage_text, openaiChoiceData_events,
              openaiChoiceData_text, choiceDeltaContent, chunkChoiceText, hc,
              String.append_empty]
      | jnull =>
        intro h
        injection h with h
        rw [← h]
        constructor <;>
          (try simp only [openaiUsage_events, openaiUsage_text, openaiChoiceData_events, openaiChoiceData_text]) <;>
          split <;>
          simp [openaiFirstChunkMeta_events, openaiFirstChunkMeta_text,
            chunkChoiceText, hc, String.append_empty]
      | jbool b =>
        intro h
        injection h with h
        rw [← h]
        constructor <;>
          (try simp only [openaiUsage_events, openaiUsage_text, openaiChoiceData_events, openaiChoiceData_text]) <;>
          split <;>
          simp [openaiFirstChunkMeta_events, openaiFirstChunkMeta_text,
            chunkChoiceText, hc, String.append_empty]
      | jnum n =>
        intro h
        injection h with h
        rw [← h]
        constructor <;>
          (try simp only [openaiUsage_events, openaiUsage_text, openaiChoiceData_events, openaiChoiceData_text]) <;>
          split <;>
          simp [openaiFirstChunkMeta_events, openaiFirstChunkMeta_text,
            chunkChoiceText, hc, String.append_empty]
      | jstr s =>
        intro h
        injection h with h
        rw [← h]
        constructor <;>
          (try simp only [openaiUsage_events, openaiUsage_text, openaiChoiceData_events, openaiChoiceData_text]) <;>
          split <;>
          simp [openaiFirstChunkMeta_events, openaiFirstChunkMeta_text,
            chunkChoiceText, hc, String.append_empty]
      | jobj o =>
        intro h
        injection h with h
        rw [← h]
        constructor <;>
          (try simp only [openaiUsage_events, openaiUsage_text, openaiChoiceData_events, openaiChoiceData_text]) <;>
          split <;>
          simp [openaiFirstChunkMeta_events, openaiFirstChunkMeta_text,
            chunkChoiceText, hc, String.append_empty]

/-- A line whose trimmed form is empty is not a `data: ` line. -/
theorem emptyTrim_no_data (line : String) (ht : strTrim line = "") :
    strHasPrefix (strTrim line) "data: " = false := by
  rw [ht]
  rfl

theorem openaiParseLines_text (decode : String → Option JObj) (lines : List String) :
    ∀ (p p2 : ParsedStream),
    openaiParseLines decode lines p = some p2 →
    p.text = choiceTextConcat p.events →
    p2.text = choiceTextConcat p2.events := by
  induction lines with
  | nil =>
    intro p p2 h hp
    rw [openaiParseLines] at h
    injection h with h
    rw [← h]
    exact hp
  | cons line rest ih =>
    intro p p2 h hp
    rw [openaiParseLines] at h
    split at h
    · exact ih _ _ h hp
    · split at h
      · split at h
        · refine ih _ _ h ?_
          show ({ p with events := p.events ++ [doneEvent] } : ParsedStream).text =
            choiceTextConcat (p.events ++ [doneEvent])
          rw [choiceTextConcat_snoc]
          show p.text = choiceTextConcat p.events ++ eventChoiceText doneEvent
          rw [hp]
          simp [eventChoiceText, doneEvent]
        · cases hq : openaiProcessChunk decode (strDropChars (strTrim line) 6) p with
          | none => rw [hq] at h; cases h
          | some q =>
            rw [hq] at h
            refine ih _ _ h ?_
            obtain ⟨chunk, hdec, hev, htx⟩ := openaiProcessChunk_shape decode _ p q hq
            rw [htx, hev, choiceTextConcat_snoc, hp]
            simp [eventChoiceText]
      · exact ih _ _ h hp

theorem openaiParseLines_events (decode : String → Option JObj) (lines : List String) :
    ∀ (p p2 : ParsedStream),
    openaiParseLines decode lines p = some p2 →
    p2.events.map Event.type =
      p.events.map Event.type ++ (dataContentsOfLines lines).map doneOrChunk := by
  induction lines with
  | nil =>
    intro p p2 h
    rw [openaiParseLines] at h
    injection h with h
    simp [← h, dataContentsOfLines]
  | cons line rest ih =>
    intro p p2 h
    rw [openaiParseLines] at h
    rw [dataContentsOfLines, List.filterMap_cons]
    split at h
    · rename_i ht
      simp only [emptyTrim_no_data line ht, Bool.false_eq_true, if_false]
      exact ih _ _ h
    · split at h
      · rename_i hnt hpre
        split at h
        · rename_i hdone
          simp only [hpre, if_true, hdone]
          have := ih _ _ h
          simp only [List.map_cons, List.map_append, List.map_cons, List.map_nil] at this ⊢
          rw [this]
          simp [doneOrChunk, doneEvent, dataContentsOfLines]
        · rename_i hndone
          cases hq : openaiProcessChunk decode (strDropChars (strTrim line) 6) p with
          | none => rw [hq] at h; cases h
          | some q =>
            rw [hq] at h
            obtain ⟨chunk, hdec, hev, htx⟩ := openaiProcessChunk_shape decode _ p q hq
            have := ih _ _ h
            simp only [hpre, if_true]
            rw [this, hev]
            simp [doneOrChunk, hndone, dataContentsOfLines]
      · rename_i hnt hpre
        simp only [Bool.not_eq_true] at hpre
        simp only [hpre, Bool.false_eq_true, if_false]
        exact ih _ _ h

theorem openaiParseLines_decodeOk (decode : String → Option JObj) (lines : List String) :
    ∀ (p p2 : ParsedStream),
    openaiParseLines decode lines p = some p2 →
    ∀ c ∈ dataContentsOfLines lines, c ≠ "[DONE]" → (decode c).isSome := by
  induction lines with
  | nil =>
    intro p p2 h c hc
    simp [dataContentsOfLines] at hc
  | cons line rest ih =>
    intro p p2 h c hc hcd
    rw [dataContentsOfLines, List.filterMap_cons] at hc
    rw [openaiParseLines] at h
    split at h
    · rename_i ht
      simp only [emptyTrim_no_data line ht, Bool.false_eq_true, if_false] at hc
      exact ih _ _ h c hc hcd
    · split at h
      · rename_i hnt hpre
        simp only [hpre, if_true] at hc
        rcases List.mem_cons.mp hc with hhead | htail
        · subst hhead
          split at h
          · rename_i hdone
            exact absurd hdone hcd
          · cases hq : openaiProcessChunk decode (strDropChars (strTrim line) 6) p with
            | none => rw [hq] at h; cases h
            | some q =>
              obtain ⟨chunk, hdec, hev, htx⟩ := openaiProcessChunk_shape decode _ p q hq
              simp [hdec]
        · split at h
          · exact ih _ _ h c htail hcd
          · cases hq : openaiProcessChunk decode (strDropChars (strTrim line) 6) p with
            | none => rw [hq] at h; cases h
            | some q =>
              rw [hq] at h
              exact ih _ _ h c htail hcd
      · rename_i hnt hpre
        simp only [Bool.not_eq_true] at hpre
        simp only [hpre, Bool.false_eq_true, if_false] at hc
        exact ih _ _ h c hc hcd

/-- Claim C5 (amended): for every decode function and every accepted input,
`Text` equals the concatenation of all `choices[0].delta.content` string
values in arrival order; and the event types are, in order, exactly one
event per trimmed `data: ` line — `done` for each `[DONE]` marker line and
`chunk` otherwise. The parser does not terminate at `[DONE]`; consequently
the result contains exactly one `done` event, as the last event, precisely
when the only `[DONE]` line is the final data line (as in a well-formed
stream), not for every input containing `[DONE]`. -/
theorem openaiParse_spec (decode : String → Option JObj) (body : String)
    (p : ParsedStream) (h : openaiParse decode body = some p) :
    p.text = choiceTextConcat p.events ∧
    p.events.map Event.type = (dataContents body).map doneOrChunk := by
  constructor
  · exact openaiParseLines_text decode (strLines body) _ p h rfl
  · have := openaiParseLines_events decode (strLines body) _ p h
    simpa [dataContents] using this

/-- Claim C5 counterexample: the input consisting of the two lines
`data: [DONE]` and `data: [DONE]` is accepted, but the parser does not
terminate at the first `[DONE]`: the result carries two synthetic `done`
events, not exactly one as the claim states. -/
theorem openaiParse_done_counterexample :
    (openaiParse decNone "data: [DONE]\ndata: [DONE]").map
      (fun p => p.events.map Event.type) = some ["done", "done"] ∧
    (openaiParse decNone "data: [DONE]\ndata: [DONE]").map
      (fun p => (p.events.filter (fun e => e.type == "done")).length) = some 2 := by
  exact ⟨rfl, rfl⟩

set_option maxRecDepth 4000 in
/-- Witness for the amended claim C5 at a concrete stream: the parse
succeeds with `Text = "Hello world"` and events `chunk, chunk, done` (one
`done`, last), and the theorem instance supplies both equalities. -/
theorem openaiParse_spec_witness :
    (openaiParse c5Decode c5Body).map ParsedStream.text = some "Hello world" ∧
    (openaiParse c5Decode c5Body).map (fun p => p.events.map Event.type) =
      some ["chunk", "chunk", "done"] ∧
    (openaiParse c5Decode c5Body).map ParsedStream.text =
      (openaiParse c5Decode c5Body).map (fun p => choiceTextConcat p.events) ∧
    (openaiParse c5Decode c5Body).map (fun p => p.events.map Event.type) =
      (openaiParse c5Decode c5Body).map (fun _ => (dataContents c5Body).map doneOrChunk) := by
  refine ⟨by rfl, by rfl, ?_, ?_⟩
  · cases hq : openaiParse c5Decode c5Body with
    | none => rfl
    | some p => simp [(openaiParse_spec c5Decode c5Body p hq).1]
  · cases hq : openaiParse c5Decode c5Body with
    | none => rfl
    | some p => simp [(openaiParse_spec c5Decode c5Body p hq).2]

/-! ## Claim C10: all-or-nothing parsing -/

theorem claudeProcessEvent_decodeOk (decode : String → Option JObj) (et dat : String)
    (p q : ParsedStream) (h : claudeProcessEvent decode et dat p = some q)
    (hne : et ≠ "ping") : (decode dat).isSome := by
  rw [claudeProcessEvent] at h
  cases hd : decode dat with
  | none =>
    rw [hd] at h
    simp [hne] at h
  | some ed => simp

theorem claudeParseLines_decodeOk (decode : String → Option JObj) (lines : List String) :
    ∀ (et dat : String) (p p2 : ParsedStream),
    claudeParseLines decode lines et dat p = some p2 →
    ∀ pr ∈ claudeFlushedLines lines et dat, pr.1 ≠ "ping" → (decode pr.2).isSome := by
  induction lines with
  | nil =>
    intro et dat p p2 h pr hpr hne
    rw [claudeParseLines] at h
    rw [claudeFlushedLines] at hpr
    split at h
    · rename_i hcond
      rw [if_pos hcond] at hpr
      have hpr2 := List.mem_singleton.mp hpr
      subst hpr2
      exact claudeProcessEvent_decodeOk decode et dat p p2 h hne
    · rename_i hcond
      rw [if_neg hcond] at hpr
      cases hpr
  | cons line rest ih =>
    intro et dat p p2 h pr hpr hne
    rw [claudeParseLines] at h
    rw [claudeFlushedLines] at hpr
    split at h
    · rename_i hev
      rw [if_pos hev] at hpr
      split at h
      · rename_i hcond
        rw [if_pos hcond] at hpr
        cases hq : claudeProcessEvent decode et dat p with
        | none => rw [hq] at h; cases h
        | some q =>
          rw [hq] at h
          rcases List.mem_cons.mp hpr with hhead | htail
          · subst hhead
            exact claudeProcessEvent_decodeOk decode et dat p q hq hne
          · exact ih _ _ _ _ h pr htail hne
      · rename_i hcond
        rw [if_neg hcond] at hpr
        exact ih _ _ _ _ h pr hpr hne
    · rename_i hev
      rw [if_neg (by simpa using hev)] at hpr
      split at h
      · rename_i hdata
        rw [if_pos hdata] at hpr
        exact ih _ _ _ _ h pr hpr hne
      · rename_i hdata
        rw [if_neg (by simpa using hdata)] at hpr
        split at h
        · rename_i hblank
          rw [if_pos hblank] at hpr
          cases hq : claudeProcessEvent decode et dat p with
          | none => rw [hq] at h; cases h
          | some q =>
            rw [hq] at h
            rcases List.mem_cons.mp hpr with hhead | htail
            · subst hhead
              exact claudeProcessEvent_decodeOk decode et dat p q hq hne
            · exact ih _ _ _ _ h pr htail hne
        · rename_i hblank
          rw [if_neg hblank] at hpr
          exact ih _ _ _ _ h pr hpr hne

theorem geminiProcessChunk_decodeOk (decode : String → Option JObj) (dat : String)
    (p q : ParsedStream) (h : geminiProcessChunk decode dat p = some q) :
    (decode dat).isSome := by
  cases hd : decode dat with
  | none =>
    rw [geminiProcessChunk] at h
    simp only [hd] at h
    exact Option.noConfusion h
  | some c => simp

theorem geminiParseLines_decodeOk (decode : String → Option JObj) (lines : List String) :
    ∀ (p p2 : ParsedStream),
    geminiParseLines decode lines p = some p2 →
    ∀ c ∈ dataContentsOfLines lines, (decode c).isSome := by
  induction lines with
  | nil =>
    intro p p2 h c hc
    simp [dataContentsOfLines] at hc
  | cons line rest ih =>
    intro p p2 h c hc
    rw [dataContentsOfLines, List.filterMap_cons] at hc
    rw [geminiParseLines] at h
    split at h
    · rename_i hpre
      simp only [hpre, if_true] at hc
      cases hq : geminiProcessChunk decode (strDropChars (strTrim line) 6) p with
      | none => rw [hq] at h; cases h
      | some q =>
        rw [hq] at h
        rcases List.mem_cons.mp hc with hhead | htail
        · subst hhead
          exact geminiProcessChunk_decodeOk decode _ p q hq
        · exact ih _ _ h c htail
    · rename_i hpre
      simp only [Bool.not_eq_true] at hpre
      simp only [hpre, Bool.false_eq_true, if_false] at hc
      exact ih _ _ h c hc

/-- Claim C10: all-or-nothing parsing. For each of the three parsers, if any
`data:` payload is not decodable (for the Claude parser: any flushed event
payload whose event type is not `ping`), the parse returns an error and no
partial result — modelled as `none`, so no ParsedStream with the events,
text, or metadata accumulated before the malformed payload is returned. -/
theorem parsers_reject_invalid_json :
    (∀ (decode : String → Option JObj) (body : String),
      (∃ pr ∈ claudeFlushed body, pr.1 ≠ "ping" ∧ decode pr.2 = none) →
      claudeParse decode body = none) ∧
    (∀ (decode : String → Option JObj) (body : String),
      (∃ c ∈ dataContents body, c ≠ "[DONE]" ∧ decode c = none) →
      openaiParse decode body = none) ∧
    (∀ (decode : String → Option JObj) (body : String),
      (∃ c ∈ dataContents body, decode c = none) →
      geminiParse decode body = none) := by
  refine ⟨?_, ?_, ?_⟩
  · intro decode body ⟨pr, hmem, hne, hdec⟩
    cases hq : claudeParse decode body with
    | none => rfl
    | some p =>
      have := claudeParseLines_decodeOk decode (strLines body) "" "" _ p hq pr hmem hne
      rw [hdec] at this
      cases this
  · intro decode body ⟨c, hmem, hne, hdec⟩
    cases hq : openaiParse decode body with
    | none => rfl
    | some p =>
      have := openaiParseLines_decodeOk decode (strLines body) _ p hq c hmem hne
      rw [hdec] at this
      cases this
  · intro decode body ⟨c, hmem, hdec⟩
    cases hq : geminiParse decode body with
    | none => rfl
    | some p =>
      have := geminiParseLines_decodeOk decode (strLines body) _ p hq c hmem
      rw [hdec] at this
      cases this

/-- Witness for claim C10: with a decode function failing on every payload,
each parser rejects a one-event stream whole. -/
theorem parsers_reject_invalid_json_witness :
    claudeParse decNone "event: foo\ndata: X\n\n" = none ∧
    openaiParse decNone "data: X\n" = none ∧
    geminiParse decNone "data: X\n" = none := by
  refine ⟨?_, ?_, ?_⟩
  · exact parsers_reject_invalid_json.1 decNone "event: foo\ndata: X\n\n"
      ⟨("foo", "X"), by decide, by decide, rfl⟩
  · exact parsers_reject_invalid_json.2.1 decNone "data: X\n"
      ⟨"X", by decide, by decide, rfl⟩
  · exact parsers_reject_invalid_json.2.2 decNone "data: X\n"
      ⟨"X", by decide, rfl⟩

/-! ## Claim C7: session grouping invariants -/

theorem containsString_iff (l : List String) (v : String) :
    containsString l v = true ↔ v ∈ l := by
  rw [containsString, List.any_eq_true]
  constructor
  · intro ⟨x, hx, he⟩
    rw [← beq_iff_eq.mp he]
    exact hx
  · intro h
    exact ⟨v, h, beq_self_eq_true v⟩

theorem updateGroup_recordingIds (g : SessionGroup) (r : Recording) :
    (updateGroup g r).recordingIds = g.recordingIds ++ [r.id] := by
  simp only [updateGroup]
  repeat' split
  all_goals rfl

theorem updateGroup_firstTimestamp (g : SessionGroup) (r : Recording) :
    (updateGroup g r).firstTimestamp = g.firstTimestamp := by
  simp only [updateGroup]
  repeat' split
  all_goals rfl

theorem updateGroup_lastTimestamp (g : SessionGroup) (r : Recording) :
    (updateGroup g r).lastTimestamp = r.timestamp := by
  simp only [updateGroup]
  repeat' split
  all_goals rfl

theorem updateGroup_providers (g : SessionGroup) (r : Recording) :
    (updateGroup g r).providers =
      if containsString g.providers r.provider then g.providers
      else g.providers ++ [r.provider] := by
  simp only [updateGroup]
  repeat' split
  all_goals simp_all

theorem updateGroup_hasErrors (g : SessionGroup) (r : Recording) :
    ((updateGroup g r).hasErrors = true ↔
      g.hasErrors = true ∨ r.error ≠ "" ∨ 400 ≤ r.response.status) := by
  simp only [updateGroup]
  by_cases herr : r.error ≠ "" ∨ 400 ≤ r.response.status <;>
    by_cases hprov : containsString g.providers r.provider = true <;>
    simp [herr, hprov]

theorem updateGroup_providers_nodup (g : SessionGroup) (r : Recording)
    (h : g.providers.Nodup) : (updateGroup g r).providers.Nodup := by
  rw [updateGroup_providers]
  by_cases hprov : containsString g.providers r.provider = true
  · simp [hprov, h]
  · simp only [hprov, Bool.false_eq_true, if_false]
    rw [List.nodup_append]
    refine ⟨h, List.nodup_singleton _, ?_⟩
    intro a ha hb
    simp at hb
    subst hb
    exact hprov ((containsString_iff _ _).mpr ha)

theorem C7Inv_step (t : String) (done : List Recording) (r : Recording)
    (idx : SessionGroupIndex)
    (ht : t ≠ "") (hr : extractTraceID r = t)
    (hmono : List.Chain' (fun a b => a.timestamp ≤ b.timestamp) (done ++ [r]))
    (hlen : done.length < maxRecordingsPerGroup)
    (hinv : C7Inv t done idx) :
    C7Inv t (done ++ [r]) (addRecording idx r).1 := by
  have hkey : extractGroupKey r = (t, true) := by
    rw [extractGroupKey, hr]
    simp [ht]
  cases done with
  | nil =>
    rw [C7Inv] at hinv
    subst hinv
    rw [List.nil_append, C7Inv]
    simp only [addRecording, hkey, emptySessionIndex, alistGet, alistPut, ht, ite_false,
      if_false, maxRecordingsPerGroup]
    by_cases hsess : extractSessionID r ≠ "" <;>
      simp only [hsess, if_true, ite_true, ite_false, if_false, alistGet, alistPut,
        List.length_nil, if_pos rfl] <;>
      refine ⟨_, r, rfl, ?_, ?_, ?_, ?_, ?_, ?_, ?_⟩ <;>
      simp [updateGroup_recordingIds, updateGroup_firstTimestamp, updateGroup_lastTimestamp,
        updateGroup_hasErrors, updateGroup_providers, containsString]
  | cons d ds =>
    rw [C7Inv] at hinv
    obtain ⟨g, lst, hgroups, hids, hfirst, hlast, hlastts, hbound, hnodup, herriff⟩ := hinv
    have hconn : lst.timestamp ≤ r.timestamp := by
      rcases List.chain'_append.mp hmono with ⟨_, _, hc⟩
      exact hc lst hlast r rfl
    have hlen2 : ¬ (maxRecordingsPerGroup ≤ g.recordingIds.length) := by
      rw [hids]
      simpa using hlen
    rw [show ((d :: ds) ++ [r]) = d :: (ds ++ [r]) from rfl, C7Inv]
    simp only [addRecording, hkey, ht, ite_false, if_false, hgroups, alistGet, if_pos rfl,
      hlen2, ite_true, if_true, alistPut]
    refine ⟨updateGroup g r, r, rfl, ?_, ?_, ?_, ?_, ?_, ?_, ?_⟩
    · rw [updateGroup_recordingIds, hids]
      simp
    · rw [updateGroup_firstTimestamp]
      exact hfirst
    · show ((d :: ds) ++ [r]).getLast? = some r
      exact List.getLast?_concat _
    · rw [updateGroup_lastTimestamp]
    · intro x hx
      have hx2 : x ∈ (d :: ds) ++ [r] := hx
      rcases List.mem_append.mp hx2 with hx3 | hx3
      · exact le_trans (hbound x hx3) hconn
      · simp at hx3
        subst hx3
        exact le_refl _
    · exact updateGroup_providers_nodup g r hnodup
    · rw [updateGroup_hasErrors, herriff]
      constructor
      · intro hcase
        rcases hcase with ⟨x, hx, hcond⟩ | hcond
        · refine ⟨x, ?_, hcond⟩
          show x ∈ (d :: ds) ++ [r]
          exact List.mem_append.mpr (Or.inl hx)
        · refine ⟨r, ?_, hcond⟩
          show r ∈ (d :: ds) ++ [r]
          exact List.mem_append.mpr (Or.inr (List.mem_singleton.mpr rfl))
      · intro ⟨x, hx, hcond⟩
        have hx2 : x ∈ (d :: ds) ++ [r] := hx
        rcases List.mem_append.mp hx2 with hx3 | hx3
        · exact Or.inl ⟨x, hx3, hcond⟩
        · simp at hx3
          subst hx3
          exact Or.inr hcond

theorem C7Inv_fold (t : String) (recs : List Recording)
    (ht : t ≠ "")
    (hall : ∀ r ∈ recs, extractTraceID r = t)
    (hmono : List.Chain' (fun a b => a.timestamp ≤ b.timestamp) recs)
    (hlen : recs.length ≤ maxRecordingsPerGroup) :
    C7Inv t recs (addAll recs) := by
  induction recs using List.reverseRecOn with
  | nil => rfl
  | append_singleton l a ih =>
    have hstep : addAll (l ++ [a]) = (addRecording (addAll l) a).1 := by
      simp [addAll, List.foldl_append]
    rw [hstep]
    have hl : l.length < maxRecordingsPerGroup := by
      have := hlen
      simp only [List.length_append, List.length_singleton] at this
      exact Nat.lt_of_lt_of_le (Nat.lt_succ_self _) this
    refine C7Inv_step t l a (addAll l) ht (hall a (by simp)) hmono hl ?_
    refine ih (fun r hr => hall r (by simp [hr])) ?_ ?_
    · exact hmono.prefix (List.prefix_append l [a])
    · have := hlen
      simp only [List.length_append, List.length_singleton] at this
      exact le_trans (Nat.le_succ _) this

/-- Claim C7 (amended): for every sequence of `AddRecording` calls on a
fresh index, over recordings that share the same non-empty trace id, arrive
in non-decreasing timestamp order (as the single recorder worker produces
them), and number at most the per-group limit of 1000: all of them are
placed in exactly one group (the index holds exactly the one group, holding
exactly their ids in order), and after every call that group satisfies
`first_timestamp ≤ last_timestamp`, has duplicate-free providers, and its
`has_errors` flag never transitions from true to false. -/
theorem addRecording_group_invariants (recs : List Recording) (t : String)
    (ht : t ≠ "")
    (hall : ∀ r ∈ recs, extractTraceID r = t)
    (hmono : List.Chain' (fun a b => a.timestamp ≤ b.timestamp) recs)
    (hlen : recs.length ≤ maxRecordingsPerGroup) :
    (∀ n, n ≤ recs.length → n ≠ 0 →
      ∃ g, (addAll (recs.take n)).groups = [(t, g)] ∧
        g.recordingIds = (recs.take n).map Recording.id ∧
        g.firstTimestamp ≤ g.lastTimestamp ∧
        g.providers.Nodup) ∧
    (∀ n m, n ≤ m → m ≤ recs.length →
      groupHasErrors (addAll (recs.take n)) t = true →
      groupHasErrors (addAll (recs.take m)) t = true) := by
  have hInvAt : ∀ k, k ≤ recs.length → C7Inv t (recs.take k) (addAll (recs.take k)) := by
    intro k hk
    refine C7Inv_fold t (recs.take k) ht ?_ ?_ ?_
    · intro r hr
      exact hall r (List.take_subset k recs hr)
    · exact hmono.prefix (List.take_prefix k recs)
    · rw [List.length_take]
      exact le_trans (min_le_right _ _) hlen
  constructor
  · intro n hn hn0
    have hinv := hInvAt n hn
    obtain ⟨d, ds, htk⟩ : ∃ d ds, recs.take n = d :: ds := by
      rcases h : recs.take n with _ | ⟨d, ds⟩
      · rcases List.take_eq_nil_iff.mp h with h0 | h0
        · exact absurd h0 hn0
        · rw [h0] at hn
          simp at hn
          exact absurd hn hn0
      · exact ⟨d, ds, rfl⟩
    rw [htk] at hinv ⊢
    rw [C7Inv] at hinv
    obtain ⟨g, lst, hgroups, hids, hfirst, hlast, hlastts, hbound, hnodup, herriff⟩ := hinv
    refine ⟨g, hgroups, hids, ?_, hnodup⟩
    rw [hfirst, hlastts]
    exact hbound d (List.mem_cons_self d ds)
  · intro n m hnm hm htrue
    have hn : n ≤ recs.length := le_trans hnm hm
    have hinvn := hInvAt n hn
    have hinvm := hInvAt m hm
    rcases htkn : recs.take n with _ | ⟨d, ds⟩
    · rw [htkn] at htrue
      simp [addAll, groupHasErrors, emptySessionIndex, alistGet] at htrue
    · rw [htkn, C7Inv] at hinvn
      obtain ⟨g, lst, hgroups, h2, h3, h4, h5, h6, h7, herriff⟩ := hinvn
      rw [htkn, groupHasErrors, hgroups] at htrue
      simp [alistGet] at htrue
      obtain ⟨x, hx, hcond⟩ := herriff.mp htrue
      have hxm : x ∈ recs.take m := by
        have hxn : x ∈ recs.take n := by
          rw [htkn]
          exact hx
        have h1 : recs.take n = (recs.take m).take n := by
          rw [List.take_take, min_eq_left hnm]
        rw [h1] at hxn
        exact List.take_subset _ _ hxn
      rcases htkm : recs.take m with _ | ⟨e, es⟩
      · rw [htkm] at hxm
        cases hxm
      · rw [htkm, C7Inv] at hinvm
        obtain ⟨g2, lst2, hgroups2, k2, k3, k4, k5, k6, k7, herriff2⟩ := hinvm
        rw [htkm] at hxm
        rw [groupHasErrors, hgroups2]
        simp [alistGet]
        exact herriff2.mpr ⟨x, hxm, hcond⟩

/-- Claim C7 counterexample: two `AddRecording` calls sharing the same
non-empty trace id, the second carrying an earlier timestamp. After the
second call the single group has `first_timestamp = 5` and
`last_timestamp = 3`, violating `first_timestamp ≤ last_timestamp`: the
source sets `LastTimestamp` to each arriving timestamp unconditionally. -/
theorem addRecording_order_counterexample :
    ((alistGet (addAll [c7Rec "r1" 5, c7Rec "r2" 3]).groups "tracecafe").map
      (fun g => (g.firstTimestamp, g.lastTimestamp))) = some (5, 3) ∧
    ¬ ((5 : Int) ≤ 3) :=
  ⟨rfl, by decide⟩

/-- Witness for the amended claim C7 at two concrete recordings with
non-decreasing timestamps: both land in the single `tracecafe` group with
ordered timestamps and duplicate-free providers. -/
theorem addRecording_group_invariants_witness :
    ∃ g, (addAll ([c7Rec "r1" 1, c7Rec "r2" 2].take 2)).groups = [("tracecafe", g)] ∧
      g.recordingIds = ([c7Rec "r1" 1, c7Rec "r2" 2].take 2).map Recording.id ∧
      g.firstTimestamp ≤ g.lastTimestamp ∧
      g.providers.Nodup :=
  (addRecording_group_invariants [c7Rec "r1" 1, c7Rec "r2" 2] "tracecafe"
    (by decide) (by decide) (by simp [c7Rec, List.chain'_cons]) (by decide)).1
    2 (by decide) (by decide)

/-! ## Claim C1: the read round-trip -/

theorem alistGet_put_self {α : Type} (l : List (String × α)) (k : String) (v : α) :
    alistGet (alistPut l k v) k = some v := by
  induction l with
  | nil => simp [alistPut, alistGet]
  | cons kv rest ih =>
    rw [show kv = (kv.1, kv.2) from rfl, alistPut]
    by_cases hk : kv.1 = k
    · rw [if_pos hk, alistGet, if_pos hk]
    · rw [if_neg hk, alistGet, if_neg hk]
      exact ih

theorem alistGet_put_ne {α : Type} (l : List (String × α)) (k k2 : String) (v : α)
    (h : k2 ≠ k) : alistGet (alistPut l k v) k2 = alistGet l k2 := by
  induction l with
  | nil =>
    simp only [alistPut, alistGet]
    rw [if_neg (fun he : k = k2 => h he.symm)]
  | cons kv rest ih =>
    rw [show kv = (kv.1, kv.2) from rfl, alistPut]
    by_cases hk : kv.1 = k
    · rw [if_pos hk, alistGet]
      subst hk
      rw [show alistGet ((kv.1, kv.2) :: rest) k2 =
        (if kv.1 = k2 then some kv.2 else alistGet rest k2) from rfl]
      rw [if_neg (fun he : kv.1 = k2 => h he.symm),
        if_neg (fun he : kv.1 = k2 => h he.symm)]
    · rw [if_neg hk, alistGet, alistGet]
      by_cases h2 : kv.1 = k2
      · rw [if_pos h2, if_pos h2]
      · rw [if_neg h2, if_neg h2]
        exact ih

theorem mem_upsertEntry (l : List IndexEntry) (x e : IndexEntry)
    (h : e ∈ upsertEntry l x) : e = x ∨ e ∈ l := by
  induction l with
  | nil =>
    rw [upsertEntry] at h
    exact Or.inl (List.mem_singleton.mp h)
  | cons y ys ih =>
    rw [upsertEntry] at h
    split at h
    · rcases List.mem_cons.mp h with h2 | h2
      · exact Or.inl h2
      · exact Or.inr (List.mem_cons_of_mem y h2)
    · rcases List.mem_cons.mp h with h2 | h2
      · exact Or.inr (by rw [h2]; exact List.mem_cons_self y ys)
      · rcases ih h2 with h3 | h3
        · exact Or.inl h3
        · exact Or.inr (List.mem_cons_of_mem y h3)

theorem self_mem_upsertEntry (l : List IndexEntry) (x : IndexEntry) :
    x ∈ upsertEntry l x := by
  induction l with
  | nil => simp [upsertEntry]
  | cons y ys ih =>
    rw [upsertEntry]
    split
    · exact List.mem_cons_self x ys
    · exact List.mem_cons_of_mem y ih

theorem mem_upsertEntry_of_mem (l : List IndexEntry) (x e : IndexEntry)
    (he : e ∈ l) : ∃ e2 ∈ upsertEntry l x, e2.id = e.id := by
  by_cases hid : e.id = x.id
  · exact ⟨x, self_mem_upsertEntry l x, hid.symm⟩
  · induction l with
    | nil => cases he
    | cons y ys ih =>
      rw [upsertEntry]
      split
      · rename_i hy
        rcases List.mem_cons.mp he with h2 | h2
        · exact absurd (h2 ▸ hy) hid
        · exact ⟨e, List.mem_cons_of_mem x h2, rfl⟩
      · rcases List.mem_cons.mp he with h2 | h2
        · exact ⟨y, List.mem_cons_self y _, by rw [h2]⟩
        · obtain ⟨e2, he2, hid2⟩ := ih h2
          exact ⟨e2, List.mem_cons_of_mem y he2, hid2⟩

theorem takeLine_append (m post : List Char) (h : '\n' ∉ m) :
    takeLine (m ++ '\n' :: post) = m ++ ['\n'] := by
  induction m with
  | nil => simp [takeLine]
  | cons c cs ih =>
    rw [List.cons_append, takeLine]
    have hc : ¬ (c = '\n') := fun he => h (he ▸ List.mem_cons_self c cs)
    simp only [hc, if_false, ite_false]
    rw [List.cons_append]
    have := ih (fun hm => h (List.mem_cons_of_mem c hm))
    rw [this]

theorem RecInv_step (marshal : Recording → List Char) (ws : List (String × Recording))
    (f : String) (r : Recording) (s : RecorderState)
    (hinv : RecInv marshal ws s) :
    RecInv marshal (ws ++ [(f, r)]) (writeRecording marshal s f r) := by
  obtain ⟨hb, hc⟩ := hinv
  constructor
  · intro e he
    rcases mem_upsertEntry s.entries _ e he with he2 | he2
    · refine ⟨(f, r), by simp, ?_⟩
      rw [he2]
      refine ⟨rfl, fsRead s.files f, [], ?_, rfl⟩
      show fsRead (alistPut s.files f (fsRead s.files f ++ marshal r ++ ['\n'])) f = _
      rw [fsRead, alistGet_put_self]
      simp
    · obtain ⟨w, hw, hwid, pre, post, hfile, hoff⟩ := hb e he2
      refine ⟨w, List.mem_append.mpr (Or.inl hw), hwid, ?_⟩
      by_cases hf : e.filename = f
      · refine ⟨pre, post ++ (marshal r ++ ['\n']), ?_, hoff⟩
        rw [writeRecording]
        show fsRead (alistPut s.files f (fsRead s.files f ++ marshal r ++ ['\n'])) e.filename = _
        rw [hf, fsRead, alistGet_put_self]
        rw [← hf, hfile]
        simp
      · refine ⟨pre, post, ?_, hoff⟩
        rw [writeRecording]
        show fsRead (alistPut s.files f (fsRead s.files f ++ marshal r ++ ['\n'])) e.filename = _
        rw [fsRead, alistGet_put_ne _ _ _ _ hf, ← fsRead, hfile]
  · intro w hw
    rcases List.mem_append.mp hw with hw2 | hw2
    · obtain ⟨e, he, heid⟩ := hc w hw2
      obtain ⟨e2, he2, heid2⟩ := mem_upsertEntry_of_mem s.entries _ e he
      exact ⟨e2, he2, by rw [heid2, heid]⟩
    · have hw3 : w = (f, r) := List.mem_singleton.mp hw2
      subst hw3
      refine ⟨_, self_mem_upsertEntry s.entries _, rfl⟩

theorem RecInv_fold (marshal : Recording → List Char) (ws : List (String × Recording)) :
    RecInv marshal ws (runWrites marshal ws) := by
  induction ws using List.reverseRecOn with
  | nil =>
    constructor
    · intro e he
      cases he
    · intro w hw
      cases hw
  | append_singleton l a ih =>
    have hstep : runWrites marshal (l ++ [a]) =
        writeRecording marshal (runWrites marshal l) a.1 a.2 := by
      simp [runWrites, List.foldl_append]
    rw [hstep]
    exact RecInv_step marshal l a.1 a.2 (runWrites marshal l) ih

theorem strHasPrefix_self (a : String) : strHasPrefix a a = true := by
  rw [strHasPrefix, List.isPrefixOf_iff_prefix]

/-- Claim C1: read round-trip. For every sequence of `writeRecording` calls
(the codec hypotheses state what `encoding/json` guarantees for the written
values: unmarshalling a marshalled line with its trailing newline returns
the value, and a marshalled line contains no raw newline), and every id
prefix of length at least 8 of the `i`-th written Recording's id that no
other written id starts with, `ReadRecording` on the resulting state returns
exactly that Recording: lookup is exact-match first then prefix match, the
stored offset is the file size before the append, and the length is the
JSON line without its newline. -/
theorem readRecording_roundtrip (marshal : Recording → List Char)
    (unmarshal : List Char → Option Recording)
    (writes : List (String × Recording))
    (hjson1 : ∀ w ∈ writes, unmarshal (marshal w.2 ++ ['\n']) = some w.2)
    (hjson2 : ∀ w ∈ writes, '\n' ∉ marshal w.2)
    (i : Nat) (hi : i < writes.length) (pfx : String)
    (hlen8 : 8 ≤ pfx.length)
    (hp : strHasPrefix (writes.get ⟨i, hi⟩).2.id pfx = true)
    (huniq : ∀ (j : Nat) (hj : j < writes.length), j ≠ i →
      strHasPrefix (writes.get ⟨j, hj⟩).2.id pfx = false) :
    readRecording unmarshal (runWrites marshal writes) pfx =
      some (writes.get ⟨i, hi⟩).2 := by
  obtain ⟨hb, hc⟩ := RecInv_fold marshal writes
  have hrmem : writes.get ⟨i, hi⟩ ∈ writes := List.get_mem writes i hi
  obtain ⟨er, hermem, herid⟩ := hc (writes.get ⟨i, hi⟩) hrmem
  have key : ∀ e ∈ (runWrites marshal writes).entries, strHasPrefix e.id pfx = true →
      unmarshal (takeLine
        ((fsRead (runWrites marshal writes).files e.filename).drop e.offset)) =
        some (writes.get ⟨i, hi⟩).2 := by
    intro e he hpe
    obtain ⟨w, hwmem, hwid, pre, post, hfile, hoff⟩ := hb e he
    obtain ⟨j, hj, hget⟩ := List.mem_iff_getElem.mp hwmem
    have hget2 : writes.get ⟨j, hj⟩ = w := hget
    have hji : j = i := by
      by_contra hne
      have hfalse := huniq j hj hne
      rw [hget2] at hfalse
      rw [hwid] at hfalse
      rw [hpe] at hfalse
      cases hfalse
    subst hji
    rw [hget2]
    rw [hfile, hoff]
    rw [show pre ++ marshal w.2 ++ '\n' :: post =
      pre ++ (marshal w.2 ++ '\n' :: post) from by simp]
    rw [List.drop_left]
    rw [takeLine_append _ _ (hjson2 w hwmem)]
    exact hjson1 w hwmem
  rw [readRecording]
  cases hex : indexGet (runWrites marshal writes).entries pfx with
  | some e =>
    have hemem := List.mem_of_find?_eq_some hex
    have heid : e.id = pfx := by
      have := List.find?_some hex
      simpa using this
    have hpe : strHasPrefix e.id pfx = true := by
      rw [heid]
      exact strHasPrefix_self pfx
    simp only [getByPrefix, hex]
    exact key e hemem hpe
  | none =>
    cases hex2 : List.find? (fun e => strHasPrefix e.id pfx)
        (runWrites marshal writes).entries with
    | none =>
      exfalso
      have hnone := List.find?_eq_none.mp hex2 er hermem
      apply hnone
      rw [herid]
      exact hp
    | some e =>
      have hemem := List.mem_of_find?_eq_some hex2
      have hpe := List.find?_some hex2
      simp only [getByPrefix, hex, hex2]
      exact key e hemem hpe

/-- Witness for claim C1: one write, then a read by the 8-character prefix
`20990101` returns exactly the written Recording. -/
theorem readRecording_roundtrip_witness :
    readRecording c1Unmarshal (runWrites c1Marshal [("recordings-2099-01-01.jsonl", c1Rec)])
      "20990101" = some c1Rec := by
  have h := readRecording_roundtrip c1Marshal c1Unmarshal
    [("recordings-2099-01-01.jsonl", c1Rec)]
    (by
      intro w hw
      have hw2 : w = ("recordings-2099-01-01.jsonl", c1Rec) := List.mem_singleton.mp hw
      subst hw2
      rfl)
    (by
      intro w hw
      have hw2 : w = ("recordings-2099-01-01.jsonl", c1Rec) := List.mem_singleton.mp hw
      subst hw2
      decide)
    0 (by decide) "20990101" (by decide) (by decide)
    (by
      intro j hj hne
      exact absurd (Nat.lt_one_iff.mp hj) hne)
  exact h

/-! ## Claim C2: Rebuild idempotence and Save/Load round-trip -/

theorem upsertEntry_fresh (es : List IndexEntry) (e : IndexEntry)
    (h : ∀ x ∈ es, x.id ≠ e.id) : upsertEntry es e = es ++ [e] := by
  induction es with
  | nil => rfl
  | cons x xs ih =>
    rw [upsertEntry, if_neg (h x (List.mem_cons_self x xs)),
      ih (fun y hy => h y (List.mem_cons_of_mem x hy))]
    rfl

theorem mem_ids_upsertEntry (es : List IndexEntry) (e : IndexEntry) (y : String)
    (hy : y ∈ (upsertEntry es e).map (fun x => x.id)) :
    y = e.id ∨ y ∈ es.map (fun x => x.id) := by
  induction es with
  | nil =>
    rw [upsertEntry] at hy
    simp at hy
    exact Or.inl hy
  | cons x xs ih =>
    rw [upsertEntry] at hy
    by_cases hx : x.id = e.id
    · rw [if_pos hx, List.map_cons] at hy
      rcases List.mem_cons.mp hy with h1 | h1
      · exact Or.inl h1
      · right
        rw [List.map_cons]
        exact List.mem_cons_of_mem _ h1
    · rw [if_neg hx, List.map_cons] at hy
      rcases List.mem_cons.mp hy with h1 | h1
      · right
        rw [h1, List.map_cons]
        exact List.mem_cons_self _ _
      · rcases ih h1 with h2 | h2
        · exact Or.inl h2
        · right
          rw [List.map_cons]
          exact List.mem_cons_of_mem _ h2

theorem ids_nodup_upsertEntry (es : List IndexEntry) (e : IndexEntry)
    (h : (es.map (fun x => x.id)).Nodup) :
    ((upsertEntry es e).map (fun x => x.id)).Nodup := by
  induction es with
  | nil => simp [upsertEntry]
  | cons x xs ih =>
    rw [List.map_cons, List.nodup_cons] at h
    obtain ⟨hx, hxs⟩ := h
    rw [upsertEntry]
    by_cases hxe : x.id = e.id
    · rw [if_pos hxe, List.map_cons, List.nodup_cons]
      rw [hxe] at hx
      exact ⟨hx, hxs⟩
    · rw [if_neg hxe, List.map_cons, List.nodup_cons]
      refine ⟨fun hmem => ?_, ih hxs⟩
      rcases mem_ids_upsertEntry xs e x.id hmem with h1 | h1
      · exact hxe h1
      · exact hx h1

theorem scanLines_ids_nodup (parseMeta : List Char → Option PartialMeta) (fname : String) :
    ∀ (lines : List (List Char)) (off : Nat) (acc : List IndexEntry),
    (acc.map (fun x => x.id)).Nodup →
    ((scanLines parseMeta fname lines off acc).map (fun x => x.id)).Nodup := by
  intro lines
  induction lines with
  | nil =>
    intro off acc h
    exact h
  | cons l rest ih =>
    intro off acc h
    rw [scanLines]
    by_cases hl : l.isEmpty
    · rw [if_pos hl]
      exact ih _ _ h
    · rw [if_neg hl]
      cases hm : parseMeta l with
      | none => exact ih _ _ h
      | some m => exact ih _ _ (ids_nodup_upsertEntry _ _ h)

theorem rebuildEntries_aux_nodup (parseMeta : List Char → Option PartialMeta) :
    ∀ (dir : List (String × List Char)) (acc : List IndexEntry),
    (acc.map (fun x => x.id)).Nodup →
    ((dir.foldl
      (fun acc f =>
        if strEndsWith f.1 ".jsonl" then scanLines parseMeta f.1 (splitSub ['\n'] f.2) 0 acc
        else acc) acc).map (fun x => x.id)).Nodup := by
  intro dir
  induction dir with
  | nil =>
    intro acc h
    exact h
  | cons f rest ih =>
    intro acc h
    simp only [List.foldl_cons]
    by_cases hf : strEndsWith f.1 ".jsonl"
    · rw [if_pos hf]
      exact ih _ (scanLines_ids_nodup parseMeta f.1 _ 0 acc h)
    · rw [if_neg hf]
      exact ih _ h

theorem rebuildEntries_ids_nodup (parseMeta : List Char → Option PartialMeta)
    (dir : List (String × List Char)) :
    ((rebuildEntries parseMeta dir).map (fun x => x.id)).Nodup := by
  rw [rebuildEntries]
  exact rebuildEntries_aux_nodup parseMeta dir [] (by simp)

theorem foldl_upsert_id :
    ∀ (es acc : List IndexEntry), ((acc ++ es).map (fun x => x.id)).Nodup →
    List.foldl upsertEntry acc es = acc ++ es := by
  intro es
  induction es with
  | nil =>
    intro acc h
    simp
  | cons e rest ih =>
    intro acc h
    rw [List.foldl_cons]
    have hfresh : ∀ x ∈ acc, x.id ≠ e.id := by
      intro x hx he
      rw [List.map_append] at h
      rcases List.nodup_append.mp h with ⟨h1, h2, hdisj⟩
      have h2m : x.id ∈ (e :: rest).map (fun x => x.id) := by
        rw [List.map_cons, he]
        exact List.mem_cons_self _ _
      exact hdisj (List.mem_map_of_mem (fun x => x.id) hx) h2m
    rw [upsertEntry_fresh acc e hfresh]
    rw [ih (acc ++ [e]) (by rw [List.append_assoc]; exact h)]
    simp

/-- Claim C2: `Index.Rebuild` is idempotent on the state against a fixed
directory, and `Rebuild` then `Save` then `Load` restores the post-`Rebuild`
in-memory map (the hypothesis states what the `index.json` array codec
guarantees for the saved value). Malformed lines are skipped by
`rebuildEntries`, advancing the running offset by the line length plus one. -/
theorem rebuild_idempotent_save_load
    (parseMeta : List Char → Option PartialMeta)
    (serialize : List IndexEntry → List Char)
    (deserialize : List Char → Option (List IndexEntry))
    (s : IndexState)
    (hdes : deserialize (serialize (rebuildEntries parseMeta s.dir)) =
      some (rebuildEntries parseMeta s.dir)) :
    indexRebuild parseMeta (indexRebuild parseMeta s) = indexRebuild parseMeta s ∧
    (indexLoad deserialize (indexSave serialize (indexRebuild parseMeta s))).entries =
      (indexRebuild parseMeta s).entries := by
  constructor
  · rfl
  · have h1 : indexSave serialize (indexRebuild parseMeta s) =
      { dir := s.dir, entries := rebuildEntries parseMeta s.dir,
        indexFile := some (serialize (rebuildEntries parseMeta s.dir)), dirty := true } := rfl
    rw [h1, indexLoad]
    simp only [hdes]
    show List.foldl upsertEntry [] (rebuildEntries parseMeta s.dir) =
      rebuildEntries parseMeta s.dir
    exact foldl_upsert_id (rebuildEntries parseMeta s.dir) []
      (by simpa using rebuildEntries_ids_nodup parseMeta s.dir)

/-- Witness for claim C2 at a directory with one malformed line. -/
theorem rebuild_idempotent_save_load_witness :
    deserialize0 (serialize0 (rebuildEntries parseMeta0 c2State.dir)) =
      some (rebuildEntries parseMeta0 c2State.dir) ∧
    (indexRebuild parseMeta0 (indexRebuild parseMeta0 c2State) = indexRebuild parseMeta0 c2State ∧
     (indexLoad deserialize0 (indexSave serialize0 (indexRebuild parseMeta0 c2State))).entries =
       (indexRebuild parseMeta0 c2State).entries) :=
  ⟨by decide, rebuild_idempotent_save_load parseMeta0 serialize0 deserialize0 c2State (by decide)⟩

end Mirra

